import Mathlib

/-!
# Verification of the pyaddict schema validation engine

Shallow embedding of the pyaddict schema validation engine
(repository `dxstiny/pyaddict`).

Authoritative sources embedded here:
* `pyaddict/schema/result.py` — `ValidationError`, `ValidationResult`
  (embedded as `VError`, `VResult`).
* `pyaddict/schema/base.py` — the modifier traits `INullable`,
  `ISchemaType` (flags and `_coerceValue`), `IWithEnum`, `IWithLength`.
* `pyaddict/schema/schema.py` — the superseded self-contained generation of
  the engine; its `String.validate` (the only `String.validate` present in
  the source tree) is embedded separately in namespace `Legacy` because it
  mutates the schema node (lazy regex compilation).

The concrete schema types of the current generation (`String`, `Integer`,
`Float`, `Boolean`, `Object`, `Array`, `OneOf` in `pyaddict/schema/__init__.py`)
are not present under the source tree (only their tests, callers and the
traits they compose are); where needed they are modelled from the spec, with
a doc comment starting `Modelled from the spec:` on each such definition.

Python-language semantics (`isinstance`, `==`, truthiness, `json.loads`,
`int()` / `float()` / `str()` casts) are modelled explicitly; the doc
comments on those definitions state the modelling choices.  Error *message*
texts are abstracted (simplified strings); error `validationKind` tags,
paths and cause chains are embedded faithfully.
-/

namespace Pyaddict

/-- A JSON-shaped Python value: the input domain of the validation engine
(mappings, sequences, text, integers, floats, booleans, `None`).  Python
floats are modelled as rationals (no claim depends on IEEE rounding).
Mappings are insertion-ordered association lists, as Python dicts are. -/
inductive JValue where
  | null : JValue
  | bool (b : Bool) : JValue
  | int (n : Int) : JValue
  | float (q : Rat) : JValue
  | str (s : String) : JValue
  | arr (xs : List JValue) : JValue
  | obj (fields : List (String × JValue)) : JValue
deriving Repr

/-- Numeric view used by Python `==`: `True`/`False` compare equal to `1`/`0`,
and `int` and `float` compare by value. -/
def JValue.numView : JValue → Option Rat
  | .bool b => some (if b then 1 else 0)
  | .int n => some (n : Rat)
  | .float q => some q
  | _ => none

mutual

/-- Python `==` on JSON-shaped values: numeric types compare by value across
`bool`/`int`/`float`; lists compare pointwise; dicts compare as key-value
maps (order-insensitive). -/
def pyEq : JValue → JValue → Bool
  | a, b =>
    match a.numView, b.numView with
    | some x, some y => x == y
    | _, _ =>
      match a, b with
      | .null, .null => true
      | .str s, .str t => s == t
      | .arr xs, .arr ys => pyEqList xs ys
      | .obj fs, .obj gs => Nat.beq fs.length gs.length && pyEqFieldsSub fs gs && pyEqFieldsSub gs fs
      | _, _ => false
termination_by a b => sizeOf a + sizeOf b
decreasing_by all_goals (simp_wf; try omega)

/-- Pointwise Python equality of two lists. -/
def pyEqList : List JValue → List JValue → Bool
  | [], [] => true
  | x :: xs, y :: ys => pyEq x y && pyEqList xs ys
  | _, _ => false
termination_by xs ys => sizeOf xs + sizeOf ys
decreasing_by all_goals (simp_wf; try omega)

/-- Every key of the first dict is present in the second with a
Python-equal value. -/
def pyEqFieldsSub : List (String × JValue) → List (String × JValue) → Bool
  | [], _ => true
  | (k, v) :: fs, gs => pyEqLookup k v gs && pyEqFieldsSub fs gs
termination_by fs gs => sizeOf fs + sizeOf gs
decreasing_by all_goals (simp_wf; try omega)

/-- The first binding of key `k` in `gs` is Python-equal to `v`. -/
def pyEqLookup (k : String) (v : JValue) : List (String × JValue) → Bool
  | [] => false
  | (k2, v2) :: gs => if k2 == k then pyEq v v2 else pyEqLookup k v gs
termination_by gs => sizeOf v + sizeOf gs
decreasing_by all_goals (simp_wf; try omega)

end

/-- First binding of a key in an insertion-ordered mapping
(Python `value[key]`). -/
def jlookup (k : String) : List (String × JValue) → Option JValue
  | [] => none
  | (k2, v) :: fs => if k2 == k then some v else jlookup k fs

/-- Python `key in mapping`. -/
def jhasKey (k : String) (fs : List (String × JValue)) : Bool :=
  (jlookup k fs).isSome

/-- Embeds `ValidationError` from `pyaddict/schema/result.py`: message, path
(ordered field names / array markers), validationKind tag, and the ordered
cause chain used by union aggregation. -/
inductive VError where
  | mk (message : String) (path : List String) (validation : String)
      (cause : List VError) : VError
deriving Repr

/-- The message carried by an error. -/
def VError.message : VError → String
  | .mk m _ _ _ => m

/-- The path carried by an error. -/
def VError.path : VError → List String
  | .mk _ p _ _ => p

/-- The validationKind tag carried by an error. -/
def VError.validation : VError → String
  | .mk _ _ v _ => v

/-- The cause chain carried by an error. -/
def VError.cause : VError → List VError
  | .mk _ _ _ c => c

/-- Embeds `ValidationError.inherit` (`result.py`): a copy of the error with
the given path segments concatenated in front of its existing path. -/
def VError.inherit (e : VError) (path : List String) : VError :=
  .mk e.message (path ++ e.path) e.validation e.cause

/-- Embeds `ValidationResult` from `pyaddict/schema/result.py`: a mutable
record with a validity state, the carried data (`None` when absent, modelled
as `JValue.null`), the error of an invalid result, and the internal
`nullable` marker allowing `Ok(None)`. -/
structure VResult where
  state : Bool
  data : JValue
  error : Option VError
  nullable : Bool
deriving Repr

/-- Embeds `ValidationResult.ok` (`result.py`): a valid result carrying
`data`, with the given nullable marker and no error. -/
def VResult.ok (data : JValue) (nullable : Bool) : VResult :=
  ⟨true, data, none, nullable⟩

/-- Embeds `ValidationResult.err` (`result.py`): an invalid result carrying
an error. -/
def VResult.err (error : VError) : VResult :=
  ⟨false, .null, some error, false⟩

/-- Embeds `ValidationResult.valid` (`result.py`). -/
def VResult.valid (r : VResult) : Bool := r.state

/-- Embeds `ValidationResult.invalidate` (`result.py`): switch the state to
invalid and store the error (the data field is left as it was). -/
def VResult.invalidate (r : VResult) (e : Option VError) : VResult :=
  { r with state := false, error := e }

/-- Embeds `ValidationResult.update` (`result.py`): merge a nested result —
a failed nested result invalidates this one with its error, a successful one
overwrites the data. -/
def VResult.update (r other : VResult) : VResult :=
  if !other.state then r.invalidate other.error
  else { r with data := other.data }

/-- The validationKind of the error of a failed result (empty string when
valid or errorless). -/
def VResult.errKind (r : VResult) : String :=
  match r.error with
  | some e => e.validation
  | none => ""

/-- The result is a failure whose error carries the given validationKind. -/
def VResult.failsWith (r : VResult) (kind : String) : Bool :=
  !r.state && (r.errKind == kind)

/-- Abrupt (exception) outcomes a validation call can propagate to its
caller, as opposed to returned failure results: the unrecoverable conversion
failure of the generic hope-and-pray cast (`to(value)` raising, e.g.
`int("abc")`), a `json.loads` decode failure in the string-to-container
coercion branch, and a `TypeError` from traversing a value of the wrong
runtime shape. -/
inductive PyExc where
  | castError : PyExc
  | jsonError : PyExc
  | typeError : PyExc
deriving Repr, DecidableEq

/-- The runtime target shapes the coercion primitive is called with
(`str`, `int`, `float`, `bool`, `dict`, `list`). -/
inductive PyType where
  | str | int | float | bool | dict | list
deriving Repr, DecidableEq

/-- Python `isinstance(value, to)` on the modelled value domain.  Notably
`isinstance(True, int)` is `True` in Python (`bool` is a subclass of `int`)
while `isinstance(1, float)` and `isinstance(1, bool)` are `False`; the model
reproduces exactly that. -/
def isinst : JValue → PyType → Bool
  | .str _, .str => true
  | .int _, .int => true
  | .bool _, .int => true
  | .bool _, .bool => true
  | .float _, .float => true
  | .obj _, .dict => true
  | .arr _, .list => true
  | _, _ => false

/-- Python truthiness (`bool(value)`): `None`, `0`, `0.0`, `""`, `[]` and
`\x7b\x7d` are falsy, everything else truthy. -/
def pyTruthy : JValue → Bool
  | .null => false
  | .bool b => b
  | .int n => !(n == 0)
  | .float q => !(q == 0)
  | .str s => !(s == "")
  | .arr xs => !xs.isEmpty
  | .obj fs => !fs.isEmpty

/-- Truncation of a rational toward zero, as Python `int(float)` does. -/
def ratTrunc (q : Rat) : Int :=
  if q.num ≥ 0 then q.num / (q.den : Int) else -((-q.num) / (q.den : Int))

/-- Python `int(string)`: optional surrounding whitespace, optional sign,
then a nonempty digit run (underscore grouping not modelled). -/
def pyParseInt (s : String) : Option Int :=
  let cs := (s.trim).toList
  let core : List Char → Option Int := fun ds =>
    if ds.isEmpty then none
    else if ds.all Char.isDigit then
      some (ds.foldl (fun acc c => acc * 10 + ((c.toNat : Int) - 48)) 0)
    else none
  match cs with
  | '-' :: rest => (core rest).map (fun n => -n)
  | '+' :: rest => core rest
  | _ => core cs

/-- Python `float(string)`: optional surrounding whitespace, optional sign,
a digit run with an optional single fractional point
(exponents, `inf` and `nan` not modelled). -/
def pyParseFloat (s : String) : Option Rat :=
  let cs := (s.trim).toList
  let digits : List Char → Option Int := fun ds =>
    if ds.isEmpty then none
    else if ds.all Char.isDigit then
      some (ds.foldl (fun acc c => acc * 10 + ((c.toNat : Int) - 48)) 0)
    else none
  let core : List Char → Option Rat := fun ds =>
    match ds.span (fun c => !(c == '.')) with
    | (whole, []) => (digits whole).map (fun n => (n : Rat))
    | (whole, _ :: frac) =>
      if whole.isEmpty && frac.isEmpty then none
      else
        let wn := if whole.isEmpty then some 0 else digits whole
        let fn := if frac.isEmpty then some 0 else digits frac
        match wn, fn with
        | some w, some f => some ((w : Rat) + (f : Rat) / ((10 : Rat) ^ frac.length))
        | _, _ => none
  match cs with
  | '-' :: rest => (core rest).map (fun q => -q)
  | '+' :: rest => core rest
  | _ => core cs

/-- Rendering used by the Python `str(value)` cast.  The exact text Python
produces for containers is irrelevant to every claim; scalars are rendered
faithfully enough (`str(5) == "5"`), containers approximately. -/
def pyStr : JValue → String
  | .null => "None"
  | .bool b => if b then "True" else "False"
  | .int n => toString n
  | .float q => toString q.num ++ "/" ++ toString q.den
  | .str s => s
  | .arr _ => "[...]"
  | .obj _ => "\x7b...\x7d"

/-- Python `int(value)`: identity on ints, `True`/`False` to `1`/`0`,
truncation toward zero on floats, string parsing (raising `ValueError` on a
non-numeric string), and `TypeError` on anything else — both abrupt outcomes
are the generic-cast failure `PyExc.castError`. -/
def pyIntCast : JValue → Except PyExc JValue
  | .int n => .ok (.int n)
  | .bool b => .ok (.int (if b then 1 else 0))
  | .float q => .ok (.int (ratTrunc q))
  | .str s =>
    match pyParseInt s with
    | some n => .ok (.int n)
    | none => .error .castError
  | _ => .error .castError

/-- Python `float(value)`. -/
def pyFloatCast : JValue → Except PyExc JValue
  | .float q => .ok (.float q)
  | .int n => .ok (.float (n : Rat))
  | .bool b => .ok (.float (if b then 1 else 0))
  | .str s =>
    match pyParseFloat s with
    | some q => .ok (.float q)
    | none => .error .castError
  | _ => .error .castError

/-- Python `str(value)`: total, never raises. -/
def pyStrCast (v : JValue) : Except PyExc JValue :=
  .ok (.str (pyStr v))

/-- Python `bool(value)`: truthiness, total. -/
def pyBoolCast (v : JValue) : Except PyExc JValue :=
  .ok (.bool (pyTruthy v))

/-- Python `dict(value)`: identity on mappings; other shapes raise
(`dict` built from a pair sequence is not modelled — no claim reaches it,
since string inputs are intercepted by the JSON branch first). -/
def pyDictCast : JValue → Except PyExc JValue
  | .obj fs => .ok (.obj fs)
  | _ => .error .castError

/-- Python `list(value)`: identity on sequences, a string becomes its list
of one-character strings, a mapping becomes its key list; other shapes
raise. -/
def pyListCast : JValue → Except PyExc JValue
  | .arr xs => .ok (.arr xs)
  | .str s => .ok (.arr (s.toList.map (fun c => .str (String.mk [c]))))
  | .obj fs => .ok (.arr (fs.map (fun kv => .str kv.1)))
  | _ => .error .castError

/-- The generic hope-and-pray cast `to(value)` of `_coerceValue`
(`base.py` line 90), dispatched on the target shape. -/
def pyCast (tgt : PyType) (v : JValue) : Except PyExc JValue :=
  match tgt with
  | .int => pyIntCast v
  | .float => pyFloatCast v
  | .str => pyStrCast v
  | .bool => pyBoolCast v
  | .dict => pyDictCast v
  | .list => pyListCast v

/-- The opening-brace character of a JSON object. -/
def lbrace : Char := Char.ofNat 123

/-- The closing-brace character of a JSON object. -/
def rbrace : Char := Char.ofNat 125

/-- Drop leading JSON whitespace. -/
def skipWs (cs : List Char) : List Char :=
  cs.dropWhile (fun c =>
    match c with
    | ' ' => true
    | '\t' => true
    | '\n' => true
    | '\r' => true
    | _ => false)

/-- Parse the remainder of a JSON string literal (the opening quote already
consumed), handling the single-character escapes; `\u` escapes are not
modelled. -/
def parseStringRest : List Char → Option (List Char × List Char)
  | [] => none
  | '"' :: rest => some ([], rest)
  | '\\' :: c :: rest =>
    let esc : Option Char :=
      match c with
      | '"' => some '"'
      | '\\' => some '\\'
      | '/' => some '/'
      | 'n' => some '\n'
      | 't' => some '\t'
      | 'r' => some '\r'
      | _ => none
    match esc with
    | none => none
    | some e =>
      match parseStringRest rest with
      | some (s, r) => some (e :: s, r)
      | none => none
  | c :: rest =>
    match parseStringRest rest with
    | some (s, r) => some (c :: s, r)
    | none => none

/-- Parse a JSON number at the head of the input: optional minus sign, digit
run, optional fractional part (exponents not modelled). -/
def parseNumber (cs : List Char) : Option (JValue × List Char) :=
  let digits : List Char → Option Int := fun ds =>
    if ds.isEmpty then none
    else some (ds.foldl (fun acc c => acc * 10 + ((c.toNat : Int) - 48)) 0)
  let go : List Char → Option (JValue × List Char) := fun cs2 =>
    match cs2.span Char.isDigit with
    | (whole, rest) =>
      match digits whole with
      | none => none
      | some w =>
        match rest with
        | '.' :: rest2 =>
          match rest2.span Char.isDigit with
          | (frac, rest3) =>
            match digits frac with
            | none => none
            | some f =>
              some (.float ((w : Rat) + (f : Rat) / ((10 : Rat) ^ frac.length)), rest3)
        | _ => some (.int w, rest)
  match cs with
  | '-' :: rest =>
    match go rest with
    | some (.int n, r) => some (.int (-n), r)
    | some (.float q, r) => some (.float (-q), r)
    | _ => none
  | _ => go cs

mutual

/-- Fueled recursive-descent parser for one JSON value, modelling
`json.loads`; returns the value and the unconsumed input, or `none` on a
decode failure. -/
def parseValue : Nat → List Char → Option (JValue × List Char)
  | 0, _ => none
  | fuel + 1, cs =>
    match skipWs cs with
    | 'n' :: 'u' :: 'l' :: 'l' :: rest => some (.null, rest)
    | 't' :: 'r' :: 'u' :: 'e' :: rest => some (.bool true, rest)
    | 'f' :: 'a' :: 'l' :: 's' :: 'e' :: rest => some (.bool false, rest)
    | '"' :: rest =>
      match parseStringRest rest with
      | some (s, r) => some (.str (String.mk s), r)
      | none => none
    | '[' :: rest =>
      (match skipWs rest with
       | ']' :: r2 => some (.arr [], r2)
       | r2 => match parseItems fuel r2 with
               | some (xs, r3) => some (.arr xs, r3)
               | none => none)
    | c :: rest =>
      if c == lbrace then
        match skipWs rest with
        | c2 :: r2 =>
          if c2 == rbrace then some (.obj [], r2)
          else
            (match parseMembers fuel (c2 :: r2) with
             | some (fs, r3) => some (.obj fs, r3)
             | none => none)
        | [] => none
      else parseNumber (c :: rest)
    | [] => none

/-- Fueled parser for the comma-separated items of a JSON array (terminated
by the closing bracket). -/
def parseItems : Nat → List Char → Option (List JValue × List Char)
  | 0, _ => none
  | fuel + 1, cs =>
    match parseValue fuel cs with
    | none => none
    | some (v, rest) =>
      match skipWs rest with
      | ',' :: r2 =>
        match parseItems fuel r2 with
        | some (vs, r3) => some (v :: vs, r3)
        | none => none
      | ']' :: r2 => some ([v], r2)
      | _ => none

/-- Fueled parser for the comma-separated members of a JSON object
(terminated by the closing brace). -/
def parseMembers : Nat → List Char → Option (List (String × JValue) × List Char)
  | 0, _ => none
  | fuel + 1, cs =>
    match skipWs cs with
    | '"' :: rest =>
      match parseStringRest rest with
      | none => none
      | some (k, r2) =>
        match skipWs r2 with
        | ':' :: r3 =>
          match parseValue fuel r3 with
          | none => none
          | some (v, r4) =>
            match skipWs r4 with
            | ',' :: r5 =>
              (match parseMembers fuel r5 with
               | some (fs, r6) => some ((String.mk k, v) :: fs, r6)
               | none => none)
            | c :: r5 =>
              if c == rbrace then some ([(String.mk k, v)], r5) else none
            | [] => none
        | _ => none
    | _ => none

end

/-- Models `json.loads(text)`: parse one JSON document with nothing but
whitespace after it; `none` models the raised `JSONDecodeError`. -/
def jsonLoads (s : String) : Option JValue :=
  match parseValue (s.length + 1) s.toList with
  | some (v, rest) => if (skipWs rest).isEmpty then some v else none
  | none => none

/-- The value is Python `None` (`value is None`). -/
def JValue.isNull : JValue → Bool
  | .null => true
  | _ => false

/-- Python `value in values` over a list, by Python equality. -/
def pyMem (v : JValue) (vs : List JValue) : Bool :=
  vs.any (fun e => pyEq v e)

/-- Embeds the shared configuration state of a schema node, from
`INullable.__init__` and `ISchemaType.__init__` in `base.py`:
`_nullable`, `_optional`, `_coerce` (all initially false) and `_default`
(initially `None`; Python does not distinguish an unset default from a
default of `None`, so neither does the model). -/
structure SchemaFlags where
  nullable : Bool
  optional : Bool
  coerce : Bool
  dflt : JValue
deriving Repr

/-- The initial flag state of a freshly constructed schema node. -/
def SchemaFlags.base : SchemaFlags := ⟨false, false, false, .null⟩

/-- Embeds the bound state of `IWithLength.__init__` (`base.py`): `_min`,
`_max` (initially unset), `_minInclusive`, `_maxInclusive`
(initially false). -/
structure LengthState where
  minVal : Option Int
  maxVal : Option Int
  minInclusive : Bool
  maxInclusive : Bool
deriving Repr

/-- The initial bound state of a freshly constructed schema node. -/
def LengthState.base : LengthState := ⟨none, none, false, false⟩

/-- Embeds the builder `IWithLength.min(min_, inclusive)` (`base.py`). -/
def LengthState.min (st : LengthState) (m : Int) (inclusive : Bool) : LengthState :=
  { st with minVal := some m, minInclusive := inclusive }

/-- Embeds the builder `IWithLength.max(max_, inclusive)` (`base.py`). -/
def LengthState.max (st : LengthState) (m : Int) (inclusive : Bool) : LengthState :=
  { st with maxVal := some m, maxInclusive := inclusive }

/-- Display name of a target shape, for coerce error messages. -/
def PyType.name : PyType → String
  | .str => "str"
  | .int => "int"
  | .float => "float"
  | .bool => "bool"
  | .dict => "dict"
  | .list => "list"

/-- Embeds `ISchemaType._coerceValue(value, to)` from `base.py` lines 63-90,
branch for branch:
1. nullable and absent input — immediately `ok(default, nullable=True)`;
2. coercion off — strict `isinstance` check, failure kind `"coerce"`;
3. coercion on — textual-to-boolean table (failure kind `"coerce"`),
   then `json.loads` for textual input with a container target (a decode
   failure propagates as a raised exception, not a result), then the
   generic hope-and-pray cast `to(value)` (failure raises). -/
def coerceValue (fl : SchemaFlags) (value : JValue) (tgt : PyType) :
    Except PyExc VResult :=
  if fl.nullable && value.isNull then
    .ok (VResult.ok fl.dflt true)
  else if !fl.coerce then
    if isinst value tgt then .ok (VResult.ok value false)
    else .ok (VResult.err (.mk ("value is not of type " ++ tgt.name) [] "coerce" []))
  else
    match value with
    | .str s =>
      if tgt == .bool then
        let l := s.toLower
        if l == "true" || l == "1" || l == "yes" || l == "y" then
          .ok (VResult.ok (.bool true) false)
        else if l == "false" || l == "0" || l == "no" || l == "n" then
          .ok (VResult.ok (.bool false) false)
        else
          .ok (VResult.err (.mk "value is not a boolean" [] "coerce" []))
      else if tgt == .dict || tgt == .list then
        match jsonLoads s with
        | some v => .ok (VResult.ok v false)
        | none => .error .jsonError
      else
        (pyCast tgt value).map (fun w => VResult.ok w false)
    | _ => (pyCast tgt value).map (fun w => VResult.ok w false)

/-- Embeds `IWithEnum.validate` from `base.py` lines 128-141: skipped when
no enum values are configured (Python falsiness: `None` or the empty list),
a null value on a nullable schema passes, otherwise membership by Python
equality, failure kind `"enum"`. -/
def enumValidate (nullable : Bool) (en : Option (List JValue)) (value : JValue) :
    VResult :=
  match en with
  | none => VResult.ok value false
  | some vs =>
    if vs.isEmpty then VResult.ok value false
    else if nullable && value.isNull then VResult.ok value true
    else if !pyMem value vs then
      VResult.err (.mk "value is not in the enum values" [] "enum" [])
    else VResult.ok value false

/-- Embeds `IWithLength.validate` from `base.py` lines 162-197: a null value
on a nullable schema passes; an inclusive min fails when `length < min`, an
exclusive min when `length <= min` (kind `"min"`); then an inclusive max
fails when `length > max`, an exclusive max when `length >= max`
(kind `"max"`).  The length function is the abstract `self.length`, a
rational so that `Float` bounds compare exactly. -/
def lengthValidate (nullable : Bool) (st : LengthState) (len : JValue → Rat)
    (value : JValue) : VResult :=
  if nullable && value.isNull then VResult.ok value true
  else
    let minBad : Bool :=
      match st.minVal with
      | some m => if st.minInclusive then len value < (m : Rat) else len value ≤ (m : Rat)
      | none => false
    let maxBad : Bool :=
      match st.maxVal with
      | some m => if st.maxInclusive then len value > (m : Rat) else len value ≥ (m : Rat)
      | none => false
    if minBad then VResult.err (.mk "length is below the minimum" [] "min" [])
    else if maxBad then VResult.err (.mk "length is above the maximum" [] "max" [])
    else VResult.ok value false

/-- A configured regex rule on a String schema: the pattern and the
validationKind / message that the configuring builder (`regex`, `email`,
`url`) chose. -/
structure RegexRule where
  pattern : String
  rtype : String
  message : String
deriving Repr

/-- Modelled from the spec: the schema graph built from the concrete schema
types `String`, `Integer`, `Float`, `Boolean`, `Object`, `Array`, `OneOf`
of `pyaddict/schema/__init__.py`, which is not under the source tree (only
its tests, callers, and the traits of `base.py` that the concrete types
compose are).  Each node owns the flag state of `ISchemaType`; `String`,
`Integer`, `Float` additionally own `IWithEnum` / `IWithLength` state,
`Boolean` owns enum state, `Array` owns bound state and one child schema,
`Object` owns an ordered field map whose values are either nested schema
nodes or exact-match literals plus the `additionalProperties` switch, and
`OneOf` owns an ordered list of alternatives. -/
inductive Schema where
  | string (fl : SchemaFlags) (en : Option (List JValue)) (ln : LengthState)
      (rx : Option RegexRule) : Schema
  | integer (fl : SchemaFlags) (en : Option (List JValue)) (ln : LengthState) : Schema
  | float (fl : SchemaFlags) (en : Option (List JValue)) (ln : LengthState) : Schema
  | boolean (fl : SchemaFlags) (en : Option (List JValue)) : Schema
  | object (fl : SchemaFlags) (body : List (String × (Schema ⊕ JValue)))
      (allowAdditional : Bool) : Schema
  | array (fl : SchemaFlags) (ln : LengthState) (item : Schema) : Schema
  | oneOf (fl : SchemaFlags) (alts : List Schema) : Schema
deriving Repr

/-- The `ISchemaType` flag state of a schema node. -/
def Schema.flags : Schema → SchemaFlags
  | .string fl _ _ _ => fl
  | .integer fl _ _ => fl
  | .float fl _ _ => fl
  | .boolean fl _ => fl
  | .object fl _ _ => fl
  | .array fl _ _ => fl
  | .oneOf fl _ => fl

/-- Replace the flag state of a schema node (the shape used by every flag
builder, which mutates `self` in place and returns it). -/
def Schema.withFlags (s : Schema) (fl : SchemaFlags) : Schema :=
  match s with
  | .string _ en ln rx => .string fl en ln rx
  | .integer _ en ln => .integer fl en ln
  | .float _ en ln => .float fl en ln
  | .boolean _ en => .boolean fl en
  | .object _ body add => .object fl body add
  | .array _ ln item => .array fl ln item
  | .oneOf _ alts => .oneOf fl alts

/-- Embeds the builder `INullable.nullable()` (`base.py`): sets the
nullable flag. -/
def Schema.nullable (s : Schema) : Schema :=
  s.withFlags { s.flags with nullable := true }

/-- Embeds the builder `ISchemaType.optional()` (`base.py`): sets the
optional flag and the nullable flag. -/
def Schema.optional (s : Schema) : Schema :=
  s.withFlags { s.flags with optional := true, nullable := true }

/-- Embeds the builder `ISchemaType.default(value)` (`base.py`): stores the
default and sets the nullable flag. -/
def Schema.default (s : Schema) (v : JValue) : Schema :=
  s.withFlags { s.flags with dflt := v, nullable := true }

/-- Embeds the builder `ISchemaType.coerce()` (`base.py`): sets the coerce
flag. -/
def Schema.coerce (s : Schema) : Schema :=
  s.withFlags { s.flags with coerce := true }

/-- Embeds the builder `IWithEnum.enum(*values)` (`base.py`): stores the
enum value list (identity on node kinds without enum state). -/
def Schema.enum (s : Schema) (vs : List JValue) : Schema :=
  match s with
  | .string fl _ ln rx => .string fl (some vs) ln rx
  | .integer fl _ ln => .integer fl (some vs) ln
  | .float fl _ ln => .float fl (some vs) ln
  | .boolean fl _ => .boolean fl (some vs)
  | s => s

/-- Embeds the builder `IWithLength.min(min_, inclusive)` (`base.py`)
(identity on node kinds without bound state). -/
def Schema.min (s : Schema) (m : Int) (inclusive : Bool) : Schema :=
  match s with
  | .string fl en ln rx => .string fl en (ln.min m inclusive) rx
  | .integer fl en ln => .integer fl en (ln.min m inclusive)
  | .float fl en ln => .float fl en (ln.min m inclusive)
  | .array fl ln item => .array fl (ln.min m inclusive) item
  | s => s

/-- Embeds the builder `IWithLength.max(max_, inclusive)` (`base.py`)
(identity on node kinds without bound state). -/
def Schema.max (s : Schema) (m : Int) (inclusive : Bool) : Schema :=
  match s with
  | .string fl en ln rx => .string fl en (ln.max m inclusive) rx
  | .integer fl en ln => .integer fl en (ln.max m inclusive)
  | .float fl en ln => .float fl en (ln.max m inclusive)
  | .array fl ln item => .array fl (ln.max m inclusive) item
  | s => s

/-- A freshly constructed `String()` schema node. -/
def mkString : Schema := .string .base none .base none

/-- A freshly constructed `Integer()` schema node. -/
def mkInteger : Schema := .integer .base none .base

/-- A freshly constructed `Float()` schema node. -/
def mkFloat : Schema := .float .base none .base

/-- A freshly constructed `Boolean()` schema node. -/
def mkBoolean : Schema := .boolean .base none

/-- A freshly constructed `Object(body, additionalProperties)` schema
node. -/
def mkObject (body : List (String × (Schema ⊕ JValue))) (allowAdditional : Bool) :
    Schema := .object .base body allowAdditional

/-- A freshly constructed `Array(item)` schema node. -/
def mkArray (item : Schema) : Schema := .array .base .base item

/-- A freshly constructed `OneOf(*alts)` schema node. -/
def mkOneOf (alts : List Schema) : Schema := .oneOf .base alts

/-- Embeds the builder `String.regex(pattern)`: stores the pattern with
kind `"regex"`. -/
def Schema.regexRule (s : Schema) (p : String) : Schema :=
  match s with
  | .string fl en ln _ => .string fl en ln (some ⟨p, "regex", "string didn't match the pattern"⟩)
  | s => s

/-- Embeds the builder `String.email()`: stores the email pattern with kind
`"email"`. -/
def Schema.email (s : Schema) : Schema :=
  match s with
  | .string fl en ln _ =>
    .string fl en ln
      (some ⟨"^[a-zA-Z0-9_.+-]+@[a-zA-Z0-9-]+\\.[a-zA-Z0-9-.]+$", "email",
             "string is not a valid email"⟩)
  | s => s

/-- Embeds the builder `String.url()`: stores the url pattern with kind
`"url"`. -/
def Schema.url (s : Schema) : Schema :=
  match s with
  | .string fl en ln _ =>
    .string fl en ln
      (some ⟨"^(https?|ftp)://[^\\s/$.?#].[^\\s]*$", "url",
             "string is not a valid url"⟩)
  | s => s

/-- The `length` method of the `String` schema type: character count
(junk 0 on non-strings, unreachable after coercion). -/
def stringLength : JValue → Rat
  | .str s => (s.length : Rat)
  | _ => 0

/-- The `length` method of the `Integer` schema type: the numeric value
itself (a boolean counts as its Python integer value). -/
def intLength : JValue → Rat
  | .int n => (n : Rat)
  | .bool b => if b then 1 else 0
  | _ => 0

/-- The `length` method of the `Float` schema type: the numeric value
itself. -/
def floatLength : JValue → Rat
  | .float q => q
  | .int n => (n : Rat)
  | _ => 0

/-- The `length` method of the `Array` schema type: element count. -/
def arrLength : JValue → Rat
  | .arr xs => (xs.length : Rat)
  | _ => 0

/-- Error extraction with a junk fallback, for positions where the source
asserts the error of a failed result is present (it always is in every
reachable flow). -/
def errOf (e : Option VError) : VError :=
  e.getD (.mk "" [] "" [])

mutual

/-- Modelled from the spec: `validate` of the concrete schema types of
`pyaddict/schema/__init__.py` (not under the source tree), composing the
embedded `base.py` traits per the spec pipeline — coercion, then (unless
the nullable short-circuit fired) enum check, length/bound check,
type-specific rule, structural recursion — stopping at the first failure.
A nullable schema on absent input succeeds immediately with the configured
default and bypasses every remaining rule.  Checks after coercion run on
the coerced value.  `m` abstracts the `re` regex matcher (external to the
repository).  Traversing a post-coercion value that is not of the container
shape (reachable only through the unchecked `json.loads` branch) is
modelled as a raised `TypeError`. -/
def validate (m : String → String → Bool) (s : Schema) (v : JValue) :
    Except PyExc VResult :=
  match s with
  | .string fl en ln rx =>
    match coerceValue fl v .str with
    | .error exc => .error exc
    | .ok r =>
      if !r.state then .ok r
      else if fl.nullable && v.isNull then .ok r
      else
        let r := r.update (enumValidate fl.nullable en r.data)
        if !r.state then .ok r
        else
          let r := r.update (lengthValidate fl.nullable ln stringLength r.data)
          if !r.state then .ok r
          else
            match rx with
            | none => .ok r
            | some rule =>
              match r.data with
              | .str s2 =>
                if !(m rule.pattern s2) then
                  .ok (r.invalidate (some (.mk rule.message [] rule.rtype [])))
                else .ok r
              | _ => .error .typeError
  | .integer fl en ln =>
    match coerceValue fl v .int with
    | .error exc => .error exc
    | .ok r =>
      if !r.state then .ok r
      else if fl.nullable && v.isNull then .ok r
      else
        let r := r.update (enumValidate fl.nullable en r.data)
        if !r.state then .ok r
        else .ok (r.update (lengthValidate fl.nullable ln intLength r.data))
  | .float fl en ln =>
    match coerceValue fl v .float with
    | .error exc => .error exc
    | .ok r =>
      if !r.state then .ok r
      else if fl.nullable && v.isNull then .ok r
      else
        let r := r.update (enumValidate fl.nullable en r.data)
        if !r.state then .ok r
        else .ok (r.update (lengthValidate fl.nullable ln floatLength r.data))
  | .boolean fl en =>
    match coerceValue fl v .bool with
    | .error exc => .error exc
    | .ok r =>
      if !r.state then .ok r
      else if fl.nullable && v.isNull then .ok r
      else .ok (r.update (enumValidate fl.nullable en r.data))
  | .object fl body allowAdditional =>
    match coerceValue fl v .dict with
    | .error exc => .error exc
    | .ok r =>
      if !r.state then .ok r
      else if fl.nullable && v.isNull then .ok r
      else
        match r.data with
        | .obj entries =>
          match validateFields m entries body with
          | .error exc => .error exc
          | .ok (.inl e) => .ok (r.invalidate (some e))
          | .ok (.inr out) =>
            if !allowAdditional then
              match entries.find? (fun kv => !(body.any (fun bf => bf.1 == kv.1))) with
              | some kv =>
                .ok (r.invalidate (some (.mk ("unexpected property " ++ kv.1) []
                      "additionalProperties" [])))
              | none => .ok (VResult.ok (.obj out) false)
            else .ok (VResult.ok (.obj out) false)
        | _ => .error .typeError
  | .array fl ln item =>
    match coerceValue fl v .list with
    | .error exc => .error exc
    | .ok r =>
      if !r.state then .ok r
      else if fl.nullable && v.isNull then .ok r
      else
        match r.data with
        | .arr xs =>
          let r := r.update (lengthValidate fl.nullable ln arrLength (.arr xs))
          if !r.state then .ok r
          else
            match validateItems m item xs with
            | .error exc => .error exc
            | .ok (.inl e) => .ok (r.invalidate (some (e.inherit ["[]"])))
            | .ok (.inr ws) => .ok (VResult.ok (.arr ws) false)
        | _ => .error .typeError
  | .oneOf fl alts =>
    if fl.nullable && v.isNull then .ok (VResult.ok fl.dflt true)
    else
      match validateAlts m v alts with
      | .error exc => .error exc
      | .ok (.inl r) => .ok r
      | .ok (.inr errs) =>
        .ok (VResult.err (.mk "value didn't match any of the schemas" [] "oneOf" errs))

/-- Modelled from the spec: the declared-field loop of `Object.validate`,
in declaration order.  A missing non-optional schema field fails with kind
`"required"` and path `[fieldName]`; a missing literal field fails with
kind `"equals"`; a failing nested validation is re-wrapped via `inherit`
with the field name prefixed; a present literal field must be Python-equal
to the literal.  On success returns the freshly collected validated
fields (absent optional fields are skipped). -/
def validateFields (m : String → String → Bool)
    (entries : List (String × JValue)) :
    List (String × (Schema ⊕ JValue)) →
    Except PyExc (Sum VError (List (String × JValue)))
  | [] => .ok (.inr [])
  | (key, .inl cs) :: rest =>
    match jlookup key entries with
    | none =>
      if !cs.flags.optional then
        .ok (.inl (.mk ("expected " ++ key ++ " to be present") [key] "required" []))
      else validateFields m entries rest
    | some inv =>
      match validate m cs inv with
      | .error exc => .error exc
      | .ok kr =>
        if !kr.state then .ok (.inl ((errOf kr.error).inherit [key]))
        else
          match validateFields m entries rest with
          | .error exc => .error exc
          | .ok (.inl e) => .ok (.inl e)
          | .ok (.inr out) => .ok (.inr ((key, kr.data) :: out))
  | (key, .inr lit) :: rest =>
    match jlookup key entries with
    | none =>
      .ok (.inl (.mk ("expected " ++ key ++ " to equal the literal") [key] "equals" []))
    | some inv =>
      if !pyEq inv lit then
        .ok (.inl (.mk ("value does not equal the literal") [key] "equals" []))
      else
        match validateFields m entries rest with
        | .error exc => .error exc
        | .ok (.inl e) => .ok (.inl e)
        | .ok (.inr out) => .ok (.inr ((key, inv) :: out))

/-- Modelled from the spec: the element loop of `Array.validate`, in index
order, stopping at the first element failure; on success returns the
freshly collected validated elements. -/
def validateItems (m : String → String → Bool) (item : Schema) :
    List JValue → Except PyExc (Sum VError (List JValue))
  | [] => .ok (.inr [])
  | x :: xs =>
    match validate m item x with
    | .error exc => .error exc
    | .ok r =>
      if !r.state then .ok (.inl (errOf r.error))
      else
        match validateItems m item xs with
        | .error exc => .error exc
        | .ok (.inl e) => .ok (.inl e)
        | .ok (.inr ws) => .ok (.inr (r.data :: ws))

/-- Modelled from the spec: the alternative loop of `OneOf.validate`, in
declared order; the first success is returned verbatim, otherwise the
errors of all alternatives are collected in order. -/
def validateAlts (m : String → String → Bool) (v : JValue) :
    List Schema → Except PyExc (Sum VResult (List VError))
  | [] => .ok (.inr [])
  | a :: rest =>
    match validate m a v with
    | .error exc => .error exc
    | .ok r =>
      if r.state then .ok (.inl r)
      else
        match validateAlts m v rest with
        | .error exc => .error exc
        | .ok (.inl r2) => .ok (.inl r2)
        | .ok (.inr errs) => .ok (.inr (errOf r.error :: errs))

end

namespace Legacy

/-- The regex slot of the legacy `String` schema (`schema.py`): Python
`Union[str, Pattern]` — either the still-uncompiled pattern string or the
compiled pattern (carrying the text it was compiled from). -/
inductive LRegex where
  | raw (p : String) : LRegex
  | compiled (p : String) : LRegex
deriving Repr, DecidableEq

/-- Embeds the configuration state of the legacy `String` schema type of
`pyaddict/schema/schema.py` (class `String`, composing the legacy
`ISchemaType`, `IWithLength`, `IWithEnum` of the same file, which have no
nullable/default state): `_optional`, `_coerce`, `_min`, `_max`,
`_minInclusive`, `_maxInclusive`, `_enum`, `_regex`, `_regexType`,
`_regexMessage`. -/
structure LegacyString where
  optional : Bool
  coerce : Bool
  minVal : Option Int
  maxVal : Option Int
  minInclusive : Bool
  maxInclusive : Bool
  enum : Option (List JValue)
  regex : Option LRegex
  regexType : Option String
  regexMessage : Option String
deriving Repr

/-- A freshly constructed legacy `String()` node. -/
def LegacyString.init : LegacyString :=
  ⟨false, false, none, none, false, false, none, none, none, none⟩

/-- Embeds the legacy builder `String.regex(regex)` (`schema.py` lines
343-348): stores the given pattern string uncompiled, with kind `"regex"`. -/
def LegacyString.regexRule (s : LegacyString) (p : String) : LegacyString :=
  { s with regex := some (.raw p), regexType := some "regex",
           regexMessage := some "string didn't match the pattern" }

/-- Embeds the legacy `ValidationResult.update` (`schema.py` lines
131-134): a failed nested result invalidates this one; unlike the current
`result.py`, a successful one changes nothing. -/
def legacyUpdate (r other : VResult) : VResult :=
  if !other.state then r.invalidate other.error else r

/-- Embeds the legacy `ISchemaType._coerceValue(value, str)` (`schema.py`
lines 177-200) at target `str`: with coercion on, the target is neither
`bool` nor a container so the generic `str(value)` cast applies (total);
with coercion off, a strict `isinstance` check. -/
def legacyCoerceStr (coerce : Bool) (value : JValue) : VResult :=
  if coerce then VResult.ok (.str (pyStr value)) false
  else if isinst value .str then VResult.ok value false
  else VResult.err (.mk "value is not of type str" [] "coerce" [])

/-- Embeds the legacy `IWithEnum.validate` (`schema.py` lines 237-244):
checked whenever `_enum is not None` (even when empty), membership by
Python equality. -/
def legacyEnumValidate (en : Option (List JValue)) (value : JValue) : VResult :=
  match en with
  | none => VResult.ok value false
  | some vs =>
    if !pyMem value vs then
      VResult.err (.mk "value is not in the enum values" [] "enum" [])
    else VResult.ok value false

/-- Embeds the legacy `IWithLength.validate` (`schema.py` lines 265-294):
identical bound semantics to `base.py`, with no null guard. -/
def legacyLengthValidate (s : LegacyString) (value : JValue) : VResult :=
  let len := stringLength value
  let minBad : Bool :=
    match s.minVal with
    | some m => if s.minInclusive then len < (m : Rat) else len ≤ (m : Rat)
    | none => false
  let maxBad : Bool :=
    match s.maxVal with
    | some m => if s.maxInclusive then len > (m : Rat) else len ≥ (m : Rat)
    | none => false
  if minBad then VResult.err (.mk "length is below the minimum" [] "min" [])
  else if maxBad then VResult.err (.mk "length is above the maximum" [] "max" [])
  else VResult.ok value false

/-- Embeds the legacy `String.validate` of `pyaddict/schema/schema.py`
lines 320-341, with the schema node threaded explicitly because the method
writes to `self`: pipeline coercion, enum, length, then — when a regex is
configured — `self._regex = re.compile(self._regex)` if the stored regex is
still a string (the in-place lazy compilation, lines 334-336), then the
match.  `m` abstracts the stdlib `re` matcher.  The returned schema is the
state of `self` after the call. -/
def legacyStringValidate (m : String → String → Bool) (s : LegacyString)
    (v : JValue) : VResult × LegacyString :=
  let r := legacyCoerceStr s.coerce v
  if !r.state then (r, s)
  else
    let r := legacyUpdate r (legacyEnumValidate s.enum r.data)
    if !r.state then (r, s)
    else
      let r := legacyUpdate r (legacyLengthValidate s r.data)
      if !r.state then (r, s)
      else
        match s.regex with
        | none => (r, s)
        | some rx =>
          let p := match rx with | .raw p => p | .compiled p => p
          let s2 := match rx with
            | .raw p2 => { s with regex := some (.compiled p2) }
            | .compiled _ => s
          match r.data with
          | .str txt =>
            if !(m p txt) then
              (r.invalidate (some (.mk (s.regexMessage.getD "") []
                  (s.regexType.getD "") [])), s2)
            else (r, s2)
          | _ => (r, s2)

/-- The stored regex of a legacy String node is not an uncompiled pattern
string (no regex configured, or already compiled). -/
def LegacyString.rawFree (s : LegacyString) : Bool :=
  match s.regex with
  | some (.raw _) => false
  | _ => true

end Legacy

/-- A validation call returned a successful result (no exception, valid
state). -/
def isOkS (e : Except PyExc VResult) : Bool :=
  match e with
  | .ok r => r.state
  | .error _ => false

mutual

/-- The same schema tree with the coerce flag cleared on every node: the
schema of the round-trip property, "the same schema with coercion
disabled". -/
def stripCoerce : Schema → Schema
  | .string fl en ln rx => .string { fl with coerce := false } en ln rx
  | .integer fl en ln => .integer { fl with coerce := false } en ln
  | .float fl en ln => .float { fl with coerce := false } en ln
  | .boolean fl en => .boolean { fl with coerce := false } en
  | .object fl body add => .object { fl with coerce := false } (stripFields body) add
  | .array fl ln item => .array { fl with coerce := false } ln (stripCoerce item)
  | .oneOf fl alts => .oneOf { fl with coerce := false } (stripAlts alts)

/-- Clear the coerce flag in every schema field of an object body. -/
def stripFields : List (String × (Schema ⊕ JValue)) → List (String × (Schema ⊕ JValue))
  | [] => []
  | (k, .inl cs) :: rest => (k, .inl (stripCoerce cs)) :: stripFields rest
  | (k, .inr lit) :: rest => (k, .inr lit) :: stripFields rest

/-- Clear the coerce flag in every alternative of a OneOf list. -/
def stripAlts : List Schema → List Schema
  | [] => []
  | a :: rest => stripCoerce a :: stripAlts rest

end

mutual

/-- No node of the schema tree has the coerce flag set. -/
def coerceFree : Schema → Bool
  | .string fl _ _ _ => !fl.coerce
  | .integer fl _ _ => !fl.coerce
  | .float fl _ _ => !fl.coerce
  | .boolean fl _ => !fl.coerce
  | .object fl body _ => !fl.coerce && coerceFreeFields body
  | .array fl _ item => !fl.coerce && coerceFree item
  | .oneOf fl alts => !fl.coerce && coerceFreeAlts alts

/-- No schema field of an object body has a coerce flag set anywhere. -/
def coerceFreeFields : List (String × (Schema ⊕ JValue)) → Bool
  | [] => true
  | (_, .inl cs) :: rest => coerceFree cs && coerceFreeFields rest
  | (_, .inr _) :: rest => coerceFreeFields rest

/-- No alternative of a OneOf list has a coerce flag set anywhere. -/
def coerceFreeAlts : List Schema → Bool
  | [] => true
  | a :: rest => coerceFree a && coerceFreeAlts rest

end

/-- The keys of an association list are pairwise distinct (always true of a
field map built from a Python dict, which cannot hold duplicate keys). -/
def nodupKeys {α : Type} : List (String × α) → Bool
  | [] => true
  | (k, _) :: rest => !(rest.any (fun kv => kv.1 == k)) && nodupKeys rest

mutual

/-- Every object body in the schema tree has pairwise-distinct field keys
(automatic for schemas built from Python dicts). -/
def wfSchema : Schema → Bool
  | .string _ _ _ _ => true
  | .integer _ _ _ => true
  | .float _ _ _ => true
  | .boolean _ _ => true
  | .object _ body _ => nodupKeys body && wfFields body
  | .array _ _ item => wfSchema item
  | .oneOf _ alts => wfAlts alts

/-- Well-formedness of the schema fields of an object body. -/
def wfFields : List (String × (Schema ⊕ JValue)) → Bool
  | [] => true
  | (_, .inl cs) :: rest => wfSchema cs && wfFields rest
  | (_, .inr _) :: rest => wfFields rest

/-- Well-formedness of the alternatives of a OneOf list. -/
def wfAlts : List Schema → Bool
  | [] => true
  | a :: rest => wfSchema a && wfAlts rest

end

mutual

/-- Every configured default value in the schema tree is itself strictly
valid for its node: on each nullable node, validating the stored default
against the node with coercion disabled succeeds.  (A default of `None` on
a nullable node always satisfies this via the nullable short-circuit.) -/
def defaultsOk (m : String → String → Bool) : Schema → Bool
  | .string fl en ln rx =>
    !fl.nullable || isOkS (validate m (stripCoerce (.string fl en ln rx)) fl.dflt)
  | .integer fl en ln =>
    !fl.nullable || isOkS (validate m (stripCoerce (.integer fl en ln)) fl.dflt)
  | .float fl en ln =>
    !fl.nullable || isOkS (validate m (stripCoerce (.float fl en ln)) fl.dflt)
  | .boolean fl en =>
    !fl.nullable || isOkS (validate m (stripCoerce (.boolean fl en)) fl.dflt)
  | .object fl body add =>
    (!fl.nullable || isOkS (validate m (stripCoerce (.object fl body add)) fl.dflt)) &&
    defaultsOkFields m body
  | .array fl ln item =>
    (!fl.nullable || isOkS (validate m (stripCoerce (.array fl ln item)) fl.dflt)) &&
    defaultsOk m item
  | .oneOf fl alts =>
    (!fl.nullable || isOkS (validate m (stripCoerce (.oneOf fl alts)) fl.dflt)) &&
    defaultsOkAlts m alts

/-- Default-validity of the schema fields of an object body. -/
def defaultsOkFields (m : String → String → Bool) :
    List (String × (Schema ⊕ JValue)) → Bool
  | [] => true
  | (_, .inl cs) :: rest => defaultsOk m cs && defaultsOkFields m rest
  | (_, .inr _) :: rest => defaultsOkFields m rest

/-- Default-validity of the alternatives of a OneOf list. -/
def defaultsOkAlts (m : String → String → Bool) : List Schema → Bool
  | [] => true
  | a :: rest => defaultsOk m a && defaultsOkAlts m rest

end

/-- A validation call returned a failure result carrying the given
validationKind (and did not raise). -/
def resFails (e : Except PyExc VResult) (kind : String) : Bool :=
  match e with
  | .ok r => r.failsWith kind
  | .error _ => false

/-- The error path of a returned failure result (empty otherwise). -/
def resPath (e : Except PyExc VResult) : List String :=
  match e with
  | .ok r => (errOf r.error).path
  | .error _ => []

/-- The cause chain of a returned failure result (empty otherwise). -/
def resCause (e : Except PyExc VResult) : List VError :=
  match e with
  | .ok r => (errOf r.error).cause
  | .error _ => []

/-- The data of a returned result (`null` on a raised exception). -/
def resData (e : Except PyExc VResult) : JValue :=
  match e with
  | .ok r => r.data
  | .error _ => .null

/-- The declared-field prefix processes without failure on the given input
entries (used to state that the missing field under scrutiny is the first
declared field to fail). -/
def prefixOkB (m : String → String → Bool) (entries : List (String × JValue))
    (pre : List (String × (Schema ⊕ JValue))) : Bool :=
  match validateFields m entries pre with
  | .ok (.inr _) => true
  | _ => false

/-- Every alternative returns a failure result on the given value (none
succeeds, none raises). -/
def allFailB (m : String → String → Bool) (v : JValue) (alts : List Schema) : Bool :=
  alts.all (fun a =>
    match validate m a v with
    | .ok r => !r.state
    | .error _ => false)

/-- The errors of the alternatives on the given value, in declared order. -/
def altErrors (m : String → String → Bool) (v : JValue) (alts : List Schema) :
    List VError :=
  alts.map (fun a =>
    match validate m a v with
    | .ok r => errOf r.error
    | .error _ => errOf none)

/-- A failure result built by `err` carries exactly the kind it was built
with. -/
theorem failsWith_err (msg : String) (p : List String) (k k2 : String)
    (c : List VError) : (VResult.err (.mk msg p k c)).failsWith k2 = (k == k2) := rfl

/-- A successful result fails with no kind. -/
theorem failsWith_ok (v : JValue) (nb : Bool) (k : String) :
    (VResult.ok v nb).failsWith k = false := rfl

/-- C10: with coercion disabled, the strict shape check of `_coerceValue`
is an `isinstance` test and Python `bool` is a subclass of `int`, so a bare
Integer schema accepts both booleans and returns them unchanged. -/
theorem C10_integer_accepts_bool :
    ∀ (m : String → String → Bool) (b : Bool),
      validate m mkInteger (.bool b) = .ok (VResult.ok (.bool b) false) := by
  intro m b
  cases b <;>
    simp [validate, mkInteger, coerceValue, enumValidate, lengthValidate, isinst,
          SchemaFlags.base, LengthState.base, VResult.update, VResult.ok,
          JValue.isNull, intLength]

/-- C4: the builders `optional()` and `default(v)` both imply the nullable
flag, and validating an absent (`None`) input against any nullable schema of
any concrete type succeeds immediately with the configured default value
(`None` when no default was set), whatever other constraints (enum, bounds,
regex, structure) are configured — none of them is evaluated. -/
theorem C4_nullable_absent_default :
    (∀ s : Schema, (Schema.optional s).flags.nullable = true) ∧
    (∀ (s : Schema) (v0 : JValue), (Schema.default s v0).flags.nullable = true) ∧
    (∀ (m : String → String → Bool) (s : Schema), s.flags.nullable = true →
      validate m s .null = .ok (VResult.ok s.flags.dflt true)) := by
  refine ⟨?_, ?_, ?_⟩
  · intro s; cases s <;> rfl
  · intro s v0; cases s <;> rfl
  · intro m s h
    cases s <;>
      simp_all [validate, coerceValue, Schema.flags, JValue.isNull, VResult.ok]

/-- C4 witness: an Integer schema with default 5 and constraints that the
value 5 and the absent input would both violate (min 10, enum without 5)
still resolves an absent input to 5. -/
theorem C4_witness :
    validate (fun _ _ => true)
        (((mkInteger.min 10 true).enum [.int 7]).default (.int 5)) .null =
      .ok (VResult.ok (.int 5) true) :=
  C4_nullable_absent_default.2.2 (fun _ _ => true)
    (((mkInteger.min 10 true).enum [.int 7]).default (.int 5)) rfl

/-- C3: bound-check semantics of `IWithLength.validate` — an inclusive min
fails exactly when `length < min`, an exclusive min exactly when
`length <= min` (kind `"min"`); an inclusive max exactly when
`length > max`, an exclusive max exactly when `length >= max`
(kind `"max"`); and at the Integer schema level,
`Integer().min(0, inclusive=False).max(10, inclusive=False)` accepts exactly
the integers 1..9 while `Integer().min(0, inclusive=True)` accepts 0. -/
theorem C3_bound_semantics :
    (∀ (st : LengthState) (len : JValue → Rat) (v : JValue) (m0 : Int),
      st.minVal = some m0 → st.minInclusive = true →
      ((lengthValidate false st len v).failsWith "min" = true ↔ len v < (m0 : Rat))) ∧
    (∀ (st : LengthState) (len : JValue → Rat) (v : JValue) (m0 : Int),
      st.minVal = some m0 → st.minInclusive = false →
      ((lengthValidate false st len v).failsWith "min" = true ↔ len v ≤ (m0 : Rat))) ∧
    (∀ (st : LengthState) (len : JValue → Rat) (v : JValue) (m1 : Int),
      st.minVal = none → st.maxVal = some m1 → st.maxInclusive = true →
      ((lengthValidate false st len v).failsWith "max" = true ↔ len v > (m1 : Rat))) ∧
    (∀ (st : LengthState) (len : JValue → Rat) (v : JValue) (m1 : Int),
      st.minVal = none → st.maxVal = some m1 → st.maxInclusive = false →
      ((lengthValidate false st len v).failsWith "max" = true ↔ len v ≥ (m1 : Rat))) ∧
    (∀ (m : String → String → Bool) (n : Int),
      isOkS (validate m ((mkInteger.min 0 false).max 10 false) (.int n)) = true ↔
        (1 ≤ n ∧ n ≤ 9)) ∧
    (∀ m : String → String → Bool,
      isOkS (validate m (mkInteger.min 0 true) (.int 0)) = true) := by
  refine ⟨?_, ?_, ?_, ?_, ?_, ?_⟩
  · intro st len v m0 h1 h2
    simp only [lengthValidate, h1, h2, JValue.isNull, Bool.false_and, Bool.false_eq_true,
               if_false, if_true]
    by_cases hlt : len v < (m0 : Rat)
    · simp [hlt, failsWith_err]
    · simp only [hlt, if_neg, if_false]
      rcases st.maxVal with _ | m1
      · simp [failsWith_ok, hlt]
      · split_ifs <;> simp_all [failsWith_err, failsWith_ok]
  · intro st len v m0 h1 h2
    simp only [lengthValidate, h1, h2, JValue.isNull, Bool.false_and, Bool.false_eq_true,
               if_false, if_true]
    by_cases hlt : len v ≤ (m0 : Rat)
    · simp [hlt, failsWith_err]
    · simp only [hlt, if_neg, if_false]
      rcases st.maxVal with _ | m1
      · simp [failsWith_ok, hlt]
      · split_ifs <;> simp_all [failsWith_err, failsWith_ok]
  · intro st len v m1 h0 h1 h2
    simp only [lengthValidate, h0, h1, h2, JValue.isNull, Bool.false_and,
               Bool.false_eq_true, if_false, if_true]
    by_cases hgt : (m1 : Rat) < len v
    · simp [hgt, failsWith_err]
      try exact hgt
    · simp [hgt, failsWith_ok]
      try exact hgt
  · intro st len v m1 h0 h1 h2
    simp only [lengthValidate, h0, h1, h2, JValue.isNull, Bool.false_and,
               Bool.false_eq_true, if_false, if_true]
    by_cases hge : (m1 : Rat) ≤ len v
    · simp [hge, failsWith_err]
      try exact hge
    · simp [hge, failsWith_ok]
      try exact hge
  · intro m n
    have e1 : ((n : Rat) ≤ 0) ↔ n ≤ 0 := by exact_mod_cast Iff.rfl
    have e2 : ((10 : Rat) ≤ (n : Rat)) ↔ (10 : Int) ≤ n := by exact_mod_cast Iff.rfl
    by_cases h1 : n ≤ 0 <;> by_cases h2 : (10 : Int) ≤ n <;>
      simp [validate, mkInteger, Schema.min, Schema.max, LengthState.min,
            LengthState.max, LengthState.base, coerceValue, enumValidate,
            lengthValidate, isinst, SchemaFlags.base, VResult.update, VResult.ok,
            VResult.err, VResult.invalidate, JValue.isNull, intLength, isOkS,
            e1, e2, h1, h2] <;>
      omega
  · intro m
    simp [validate, mkInteger, Schema.min, LengthState.min, LengthState.base,
          coerceValue, enumValidate, lengthValidate, isinst, SchemaFlags.base,
          VResult.update, VResult.ok, VResult.err, JValue.isNull, intLength, isOkS]

/-- C3 witness: each bound case at a concrete boundary input, and the
Integer scenarios at 9 and 0. -/
theorem C3_witness :
    ((lengthValidate false ⟨some 3, none, true, false⟩ intLength (.int 2)).failsWith
        "min" = true) ∧
    ((lengthValidate false ⟨some 3, none, false, false⟩ intLength (.int 3)).failsWith
        "min" = true) ∧
    ((lengthValidate false ⟨none, some 3, false, true⟩ intLength (.int 4)).failsWith
        "max" = true) ∧
    ((lengthValidate false ⟨none, some 3, false, false⟩ intLength (.int 3)).failsWith
        "max" = true) ∧
    (isOkS (validate (fun _ _ => true) ((mkInteger.min 0 false).max 10 false)
        (.int 9)) = true) ∧
    (isOkS (validate (fun _ _ => true) (mkInteger.min 0 true) (.int 0)) = true) :=
  ⟨(C3_bound_semantics.1 _ intLength (.int 2) 3 rfl rfl).mpr (by norm_num [intLength]),
   (C3_bound_semantics.2.1 _ intLength (.int 3) 3 rfl rfl).mpr (by norm_num [intLength]),
   (C3_bound_semantics.2.2.1 _ intLength (.int 4) 3 rfl rfl rfl).mpr
     (by norm_num [intLength]),
   (C3_bound_semantics.2.2.2.1 _ intLength (.int 3) 3 rfl rfl rfl).mpr
     (by norm_num [intLength]),
   (C3_bound_semantics.2.2.2.2.1 (fun _ _ => true) 9).mpr (by norm_num),
   C3_bound_semantics.2.2.2.2.2 (fun _ _ => true)⟩

/-- C7: the enum check of `IWithEnum.validate` is skipped entirely when no
enum values are configured (`None` or, by Python falsiness, the empty
list); with nonempty configured values and a value that is not the null
short-circuit, it fails with kind `"enum"` exactly when the value is not a
member; and `String().enum("a","b")` rejects `"c"` with kind `enum` at the
schema level. -/
theorem C7_enum_semantics :
    (∀ (nb : Bool) (v : JValue), enumValidate nb none v = VResult.ok v false) ∧
    (∀ (nb : Bool) (v : JValue), enumValidate nb (some []) v = VResult.ok v false) ∧
    (∀ (nb : Bool) (vs : List JValue) (v : JValue), vs ≠ [] → (nb && v.isNull) = false →
      ((enumValidate nb (some vs) v).failsWith "enum" = true ↔ pyMem v vs = false)) ∧
    (∀ m : String → String → Bool,
      resFails (validate m (mkString.enum [.str "a", .str "b"]) (.str "c"))
        "enum" = true) := by
  refine ⟨fun nb v => rfl, fun nb v => rfl, ?_, ?_⟩
  · intro nb vs v hvs hnull
    simp [enumValidate, List.isEmpty_iff, hvs, hnull, VResult.failsWith,
          VResult.errKind, VResult.err, VResult.ok]
    rcases h : pyMem v vs <;> (simp_all [Bool.and_eq_false_iff]; try tauto)
  · intro m
    simp [validate, mkString, Schema.enum, coerceValue, enumValidate, lengthValidate,
          isinst, SchemaFlags.base, LengthState.base, VResult.update, VResult.ok,
          VResult.err, VResult.invalidate, JValue.isNull, stringLength, resFails,
          VResult.failsWith, VResult.errKind, VError.validation, pyMem, pyEq,
          JValue.numView]

/-- C7 witness: the membership direction at a concrete value outside a
nonempty enum, and the skip cases at concrete values. -/
theorem C7_witness :
    (enumValidate false none (.int 3) = VResult.ok (.int 3) false) ∧
    (enumValidate true (some []) (.int 3) = VResult.ok (.int 3) false) ∧
    ((enumValidate false (some [.str "a"]) (.str "c")).failsWith "enum" = true) ∧
    (resFails (validate (fun _ _ => true) (mkString.enum [.str "a", .str "b"])
        (.str "c")) "enum" = true) :=
  ⟨C7_enum_semantics.1 false (.int 3),
   C7_enum_semantics.2.1 true (.int 3),
   (C7_enum_semantics.2.2.1 false [.str "a"] (.str "c") (by simp) rfl).mpr
     (by simp [pyMem, pyEq, JValue.numView]),
   C7_enum_semantics.2.2.2 (fun _ _ => true)⟩

/-- C8 counterexample: validating `"abc"` against the legacy
`String().regex("^a")` of `schema.py` changes the schema node in place —
the stored regex field is a pattern string before the call and a compiled
pattern after it, so the schema observed after validate is not identical to
the schema before it. -/
theorem C8_counterexample :
    ((Legacy.legacyStringValidate (fun _ _ => true)
        (Legacy.LegacyString.init.regexRule "^a") (.str "abc")).2).regex ≠
      (Legacy.LegacyString.init.regexRule "^a").regex := by
  decide

/-- C8 amended: the legacy `String.validate` leaves the schema node exactly
as it was whenever the stored regex is not an uncompiled pattern string (no
regex configured, or already compiled); the only mutation it ever performs
is replacing a string-typed regex by its compiled form on first
validation. -/
theorem C8_validate_preserves_schema_unless_raw_regex :
    ∀ (m : String → String → Bool) (s : Legacy.LegacyString) (v : JValue),
      s.rawFree = true → (Legacy.legacyStringValidate m s v).2 = s := by
  intro m s v h
  unfold Legacy.legacyStringValidate
  unfold Legacy.LegacyString.rawFree at h
  rcases hrx : s.regex with _ | rx
  · simp only [hrx]
    split_ifs <;> rfl
  · rcases rx with p | p
    · simp [hrx] at h
    · simp only [hrx]
      split_ifs <;> try rfl
      split
      · split_ifs <;> rfl
      · rfl

/-- C8 witness: a legacy String schema whose regex is already compiled is
returned unchanged by validate. -/
theorem C8_witness :
    Legacy.LegacyString.rawFree
        ⟨false, false, none, none, false, false, none,
         some (.compiled "^a"), some "regex", some "msg"⟩ = true ∧
    (Legacy.legacyStringValidate (fun _ _ => true)
        ⟨false, false, none, none, false, false, none,
         some (.compiled "^a"), some "regex", some "msg"⟩ (.str "xy")).2 =
      ⟨false, false, none, none, false, false, none,
       some (.compiled "^a"), some "regex", some "msg"⟩ :=
  ⟨rfl, C8_validate_preserves_schema_unless_raw_regex (fun _ _ => true) _ _ rfl⟩


/-- State of a merged result: valid exactly when both the current and the nested result are valid. -/
theorem update_state (r o : VResult) : (r.update o).state = (o.state && r.state) := by
  unfold VResult.update VResult.invalidate
  rcases ho : o.state <;> simp [ho]

/-- Data of a merged result when the nested result succeeded. -/
theorem update_data (r o : VResult) (h : o.state = true) :
    (r.update o).data = o.data := by
  unfold VResult.update
  simp [h]

/-- The enum check passes its value through unchanged on success. -/
theorem enumValidate_data (nb : Bool) (en : Option (List JValue)) (w : JValue)
    (h : (enumValidate nb en w).state = true) : (enumValidate nb en w).data = w := by
  unfold enumValidate at *
  rcases en with _ | vs
  · rfl
  · split_ifs at * <;> simp_all [VResult.ok, VResult.err] <;>
      split_ifs <;> simp_all

/-- The length check passes its value through unchanged on success. -/
theorem lengthValidate_data (nb : Bool) (st : LengthState) (len : JValue → Rat)
    (w : JValue) (h : (lengthValidate nb st len w).state = true) :
    (lengthValidate nb st len w).data = w := by
  unfold lengthValidate at *
  split_ifs at * <;> simp_all [VResult.ok, VResult.err] <;>
      split_ifs <;> simp_all

/-- With coercion off, the coercion primitive never raises. -/
theorem coerceValue_strict_total (fl : SchemaFlags) (v : JValue) (tgt : PyType)
    (h : fl.coerce = false) : ∃ r, coerceValue fl v tgt = .ok r := by
  unfold coerceValue
  simp only [h, Bool.not_false, if_true]
  split_ifs <;> exact ⟨_, rfl⟩

/-- With coercion off, a successful non-bypass coercion returns the input itself, which passed the isinstance check. -/
theorem coerceValue_strict_ok (fl : SchemaFlags) (v : JValue) (tgt : PyType)
    (r : VResult) (hc : fl.coerce = false) (h : coerceValue fl v tgt = .ok r)
    (hs : r.state = true) (hb : (fl.nullable && v.isNull) = false) :
    r = VResult.ok v false ∧ isinst v tgt = true := by
  unfold coerceValue at h
  rw [hb] at h
  simp only [Bool.false_eq_true, if_false, hc, Bool.not_false, if_true] at h
  by_cases hi : isinst v tgt = true
  · rw [if_pos hi] at h
    injection h with h
    exact ⟨h.symm, hi⟩
  · rw [if_neg hi] at h
    injection h with h
    rw [← h] at hs
    simp [VResult.err] at hs

/-- Only strings are instances of str. -/
theorem isinst_str (v : JValue) (h : isinst v .str = true) : ∃ s, v = .str s := by
  cases v <;> simp_all [isinst]

/-- Only mappings are instances of dict. -/
theorem isinst_dict (v : JValue) (h : isinst v .dict = true) :
    ∃ es, v = .obj es := by
  cases v <;> simp_all [isinst]

/-- Only sequences are instances of list. -/
theorem isinst_list (v : JValue) (h : isinst v .list = true) :
    ∃ xs, v = .arr xs := by
  cases v <;> simp_all [isinst]

/-- The declared-field loop processes a concatenation left to right, short-circuiting on the first failure and concatenating the collected outputs. -/
theorem validateFields_append (m : String → String → Bool)
    (entries : List (String × JValue)) :
    ∀ (pre su : List (String × (Schema ⊕ JValue))),
      validateFields m entries (pre ++ su) =
        match validateFields m entries pre with
        | .error e => .error e
        | .ok (.inl e) => .ok (.inl e)
        | .ok (.inr out1) =>
          match validateFields m entries su with
          | .error e => .error e
          | .ok (.inl e) => .ok (.inl e)
          | .ok (.inr out2) => .ok (.inr (out1 ++ out2)) := by
  intro pre su
  induction pre with
  | nil =>
    simp only [List.nil_append, validateFields]
    rcases validateFields m entries su with e | r
    · rfl
    · rcases r with e | out <;> rfl
  | cons hd tl ih =>
    rcases hd with ⟨k, cs | lit⟩
    · simp only [List.cons_append, validateFields]
      rcases hl : jlookup k entries with _ | inv
      · split_ifs <;> simp [ih]
      · rcases hv : validate m cs inv with e | kr
        · simp [hv]
        · simp only [hv]
          by_cases hs : kr.state = false
          · simp [hs]
          · simp only [if_neg hs, ih]
            rcases h1 : validateFields m entries tl with e | r
            · simp [hs, h1]
            · rcases r with e | out1
              · simp [hs, h1]
              · simp only [h1]
                rcases h2 : validateFields m entries su with e | r2
                · simp [hs, h2]
                · rcases r2 with e | out2 <;> simp [hs, h2]
    · simp only [List.cons_append, validateFields]
      rcases hl : jlookup k entries with _ | inv
      · simp
      · by_cases hp : (!pyEq inv lit) = true
        · simp [hp]
        · simp only [if_neg hp, ih]
          rcases h1 : validateFields m entries tl with e | r
          · simp [hp, h1]
          · rcases r with e | out1
            · simp [hp, h1]
            · simp only [h1]
              rcases h2 : validateFields m entries su with e | r2
              · simp [hp, h2]
              · rcases r2 with e | out2 <;> simp [hp, h2]

/-- Every key collected by the declared-field loop is a declared key. -/
theorem validateFields_keys (m : String → String → Bool)
    (entries : List (String × JValue)) :
    ∀ (body : List (String × (Schema ⊕ JValue))) (out : List (String × JValue)),
      validateFields m entries body = .ok (.inr out) →
      ∀ k, k ∈ out.map Prod.fst → k ∈ body.map Prod.fst := by
  intro body
  induction body with
  | nil =>
    intro out h k hk
    simp [validateFields] at h
    subst h
    simp at hk
  | cons hd tl ih =>
    intro out h k hk
    rcases hd with ⟨k2, cs | lit⟩
    · simp only [validateFields] at h
      rcases hl : jlookup k2 entries with _ | inv <;> rw [hl] at h <;> simp only at h
      · by_cases hopt : (!cs.flags.optional) = true
        · simp [hopt] at h
        · simp only [hopt, if_false, Bool.false_eq_true] at h
          have := ih out h k hk
          simp [this]
      · rcases hv : validate m cs inv with e | kr <;> rw [hv] at h
        · simp at h
        · by_cases hs : (!kr.state) = true
          · simp [hs] at h
          · simp only [hs, if_false, Bool.false_eq_true] at h
            rcases h1 : validateFields m entries tl with e | r <;> rw [h1] at h
            · simp at h
            · rcases r with e | out1
              · simp at h
              · simp only at h
                rcases h with h
                injection h with h
                injection h with h
                subst h
                simp at hk
                rcases hk with hk | hk
                · simp [hk]
                · have := ih out1 h1 k (by simpa using hk)
                  simp [this]
    · simp only [validateFields] at h
      rcases hl : jlookup k2 entries with _ | inv <;> rw [hl] at h <;> simp only at h
      · simp at h
      · by_cases hp : (!pyEq inv lit) = true
        · simp [hp] at h
        · simp only [hp, if_false, Bool.false_eq_true] at h
          rcases h1 : validateFields m entries tl with e | r <;> rw [h1] at h
          · simp at h
          · rcases r with e | out1
            · simp at h
            · simp only at h
              injection h with h
              injection h with h
              subst h
              simp at hk
              rcases hk with hk | hk
              · simp [hk]
              · have := ih out1 h1 k (by simpa using hk)
                simp [this]

/-- The coercion primitive at target dict accepts a mapping unchanged whatever the flags (the input is non-null, and both the strict check and the generic cast are the identity on mappings). -/
theorem coerceValue_obj (fl : SchemaFlags) (es : List (String × JValue)) :
    coerceValue fl (.obj es) .dict = .ok (VResult.ok (.obj es) false) := by
  unfold coerceValue
  simp [JValue.isNull, isinst, pyCast, pyDictCast, Except.map]

/-- A key that is not in a mapping looks up to none. -/
theorem jlookup_none_of_not_hasKey (f : String) (es : List (String × JValue))
    (h : jhasKey f es = false) : jlookup f es = none := by
  unfold jhasKey at h
  rcases hl : jlookup f es with _ | v
  · rfl
  · rw [hl] at h; simp at h

/-- The alternative loop returns the first success verbatim after any number of failing alternatives. -/
theorem validateAlts_first_success (m : String → String → Bool) (v : JValue) :
    ∀ (pre : List Schema) (a : Schema) (post : List Schema) (r : VResult),
      allFailB m v pre = true → validate m a v = .ok r → r.state = true →
      validateAlts m v (pre ++ a :: post) = .ok (.inl r) := by
  intro pre
  induction pre with
  | nil =>
    intro a post r _ hv hs
    simp only [List.nil_append, validateAlts, hv, hs, if_true]
  | cons hd tl ih =>
    intro a post r hall hv hs
    simp only [allFailB, List.all_cons, Bool.and_eq_true] at hall
    rcases hall with ⟨h1, h2⟩
    simp only [List.cons_append, validateAlts]
    rcases hh : validate m hd v with e | rh <;> rw [hh] at h1
    · simp at h1
    · simp only [Bool.not_eq_true'] at h1
      simp only [hh, h1, Bool.false_eq_true, if_false]
      rw [ih a post r h2 hv hs]

/-- When every alternative fails, the alternative loop collects exactly their errors in declared order. -/
theorem validateAlts_all_fail (m : String → String → Bool) (v : JValue) :
    ∀ alts : List Schema, allFailB m v alts = true →
      validateAlts m v alts = .ok (.inr (altErrors m v alts)) := by
  intro alts
  induction alts with
  | nil => intro _; simp [validateAlts, altErrors]
  | cons hd tl ih =>
    intro hall
    simp only [allFailB, List.all_cons, Bool.and_eq_true] at hall
    rcases hall with ⟨h1, h2⟩
    simp only [validateAlts, altErrors, List.map_cons]
    rcases hh : validate m hd v with e | rh <;> rw [hh] at h1
    · simp at h1
    · simp only [Bool.not_eq_true'] at h1
      simp only [hh, h1, Bool.false_eq_true, if_false]
      have := ih h2
      simp only [altErrors] at this
      rw [this]

/-- The declared-field loop never raises when no nested validation raises. -/
theorem validateFields_total (m : String → String → Bool)
    (entries : List (String × JValue)) :
    ∀ body : List (String × (Schema ⊕ JValue)),
      (∀ k cs, (k, Sum.inl cs) ∈ body → ∀ v, ∃ r, validate m cs v = .ok r) →
      ∃ y, validateFields m entries body = .ok y := by
  intro body
  induction body with
  | nil => intro _; exact ⟨.inr [], by simp [validateFields]⟩
  | cons hd tl ih =>
    intro h
    have htl : ∀ k cs, (k, Sum.inl cs) ∈ tl → ∀ v, ∃ r, validate m cs v = .ok r :=
      fun k cs hm v => h k cs (List.mem_cons_of_mem hd hm) v
    rcases hd with ⟨k2, cs | lit⟩
    · simp only [validateFields]
      rcases hl : jlookup k2 entries with _ | inv
      · split_ifs
        · exact ⟨_, rfl⟩
        · exact ih htl
      · rcases h k2 cs (List.mem_cons_self _ _) inv with ⟨kr, hkr⟩
        simp only [hkr]
        split_ifs
        · exact ⟨_, rfl⟩
        · rcases ih htl with ⟨y, hy⟩
          simp only [hy]
          rcases y with e | out <;> exact ⟨_, rfl⟩
    · simp only [validateFields]
      rcases hl : jlookup k2 entries with _ | inv
      · exact ⟨_, rfl⟩
      · by_cases hp : (!pyEq inv lit) = true
        · exact ⟨.inl (.mk "value does not equal the literal" [k2] "equals" []),
            by simp [hp]⟩
        · rcases ih htl with ⟨y, hy⟩
          rcases y with e | out
          · exact ⟨.inl e, by simp [hp, hy]⟩
          · exact ⟨.inr ((k2, inv) :: out), by simp [hp, hy]⟩

/-- The element loop never raises when the child schema never raises. -/
theorem validateItems_total (m : String → String → Bool) (item : Schema)
    (h : ∀ v, ∃ r, validate m item v = .ok r) :
    ∀ xs : List JValue, ∃ y, validateItems m item xs = .ok y := by
  intro xs
  induction xs with
  | nil => exact ⟨.inr [], by simp [validateItems]⟩
  | cons x tl ih =>
    simp only [validateItems]
    rcases h x with ⟨r, hr⟩
    simp only [hr]
    split_ifs
    · exact ⟨_, rfl⟩
    · rcases ih with ⟨y, hy⟩
      simp only [hy]
      rcases y with e | ws <;> exact ⟨_, rfl⟩

/-- The alternative loop never raises when no alternative raises. -/
theorem validateAlts_total (m : String → String → Bool) (v : JValue) :
    ∀ alts : List Schema, (∀ a, a ∈ alts → ∃ r, validate m a v = .ok r) →
      ∃ y, validateAlts m v alts = .ok y := by
  intro alts
  induction alts with
  | nil => intro _; exact ⟨.inr [], by simp [validateAlts]⟩
  | cons a tl ih =>
    intro h
    simp only [validateAlts]
    rcases h a (List.mem_cons_self _ _) with ⟨r, hr⟩
    simp only [hr]
    split_ifs
    · exact ⟨_, rfl⟩
    · rcases ih (fun b hb => h b (List.mem_cons_of_mem a hb)) with ⟨y, hy⟩
      simp only [hy]
      rcases y with e | errs <;> exact ⟨_, rfl⟩

/-- A schema stored in an object body is structurally smaller than the body. -/
theorem sizeOf_field_lt (k : String) (cs : Schema)
    (body : List (String × (Schema ⊕ JValue))) (hm : (k, Sum.inl cs) ∈ body) :
    sizeOf cs < sizeOf body := by
  have h := List.sizeOf_lt_of_mem hm
  simp only [Prod.mk.sizeOf_spec, Sum.inl.sizeOf_spec] at h
  omega

/-- An alternative is structurally smaller than its list. -/
theorem sizeOf_alt_lt (a : Schema) (alts : List Schema) (hm : a ∈ alts) :
    sizeOf a < sizeOf alts :=
  List.sizeOf_lt_of_mem hm

/-- Coerce-freedom of a body passes to its schema fields. -/
theorem coerceFree_fields_mem :
    ∀ body : List (String × (Schema ⊕ JValue)), coerceFreeFields body = true →
      ∀ k cs, (k, Sum.inl cs) ∈ body → coerceFree cs = true := by
  intro body
  induction body with
  | nil => intro _ k cs hm; simp at hm
  | cons hd tl ih =>
    intro h k cs hm
    rcases List.mem_cons.mp hm with heq | hm2
    · rw [← heq] at h
      simp only [coerceFreeFields, Bool.and_eq_true] at h
      exact h.1
    · rcases hd with ⟨k2, cs2 | lit⟩
      · simp only [coerceFreeFields, Bool.and_eq_true] at h
        exact ih h.2 k cs hm2
      · simp only [coerceFreeFields] at h
        exact ih h k cs hm2

/-- Coerce-freedom of an alternative list passes to its members. -/
theorem coerceFree_alts_mem :
    ∀ alts : List Schema, coerceFreeAlts alts = true →
      ∀ a, a ∈ alts → coerceFree a = true := by
  intro alts
  induction alts with
  | nil => intro _ a hm; simp at hm
  | cons hd tl ih =>
    intro h a hm
    simp only [coerceFreeAlts, Bool.and_eq_true] at h
    rcases List.mem_cons.mp hm with heq | hm2
    · rw [heq]; exact h.1
    · exact ih h.2 a hm2

/-- With the coerce flag clear on every node, validate returns a result on every input — it never raises. -/
theorem validate_total (m : String → String → Bool) :
    ∀ (s : Schema), coerceFree s = true → ∀ v, ∃ r, validate m s v = .ok r := by
  suffices H : ∀ (n : Nat) (s : Schema), sizeOf s < n → coerceFree s = true →
      ∀ v, ∃ r, validate m s v = .ok r by
    exact fun s hcf v => H (sizeOf s + 1) s (by omega) hcf v
  intro n
  induction n with
  | zero => intro s h; exact absurd h (Nat.not_lt_zero _)
  | succ n ih =>
    intro s hsz hcf v
    cases s with
    | string fl en ln rx =>
      simp only [coerceFree] at hcf
      simp only [Bool.not_eq_true'] at hcf
      obtain ⟨r, hr⟩ := coerceValue_strict_total fl v .str hcf
      simp only [validate, hr]
      by_cases h1 : (!r.state) = true
      · exact ⟨r, by simp [h1]⟩
      · simp only [h1, Bool.false_eq_true, if_false]
        by_cases h2 : (fl.nullable && v.isNull) = true
        · exact ⟨r, by simp [h2]⟩
        · simp only [h2, Bool.false_eq_true, if_false]
          have h1s : r.state = true := by simpa using h1
          obtain ⟨hre, hiv⟩ := coerceValue_strict_ok fl v .str r hcf hr h1s
            (by simpa using h2)
          obtain ⟨s0, hv⟩ := isinst_str v hiv
          subst hv hre
          set e := enumValidate fl.nullable en (VResult.ok (.str s0) false).data
            with hedef
          by_cases he : ((VResult.ok (.str s0) false).update e).state = false
          · exact ⟨(VResult.ok (.str s0) false).update e, by simp [he]⟩
          · simp only [he, Bool.false_eq_true, if_false]
            simp only [Bool.not_eq_false] at he
            have heS : e.state = true := by
              have := update_state (VResult.ok (.str s0) false) e
              rw [he] at this
              rcases h3 : e.state
              · rw [h3] at this; simp at this
              · rfl
            have hedata : ((VResult.ok (.str s0) false).update e).data = .str s0 := by
              rw [update_data _ _ heS, hedef, enumValidate_data _ _ _ heS]
              rfl
            set r2 := (VResult.ok (.str s0) false).update e with hr2def
            set l := lengthValidate fl.nullable ln stringLength r2.data with hldef
            by_cases hl : (r2.update l).state = false
            · exact ⟨r2.update l, by simp [hl]⟩
            · simp only [hl, Bool.false_eq_true, if_false]
              simp only [Bool.not_eq_false] at hl
              have hlS : l.state = true := by
                have := update_state r2 l
                rw [hl] at this
                rcases h3 : l.state
                · rw [h3] at this; simp at this
                · rfl
              have hldata : (r2.update l).data = .str s0 := by
                rw [update_data _ _ hlS, hldef, lengthValidate_data _ _ _ _ hlS,
                    hedata]
              rcases rx with _ | rule
              · exact ⟨_, rfl⟩
              · simp only [hldata]
                split_ifs <;> exact ⟨_, rfl⟩
    | integer fl en ln =>
      simp only [coerceFree, Bool.not_eq_true'] at hcf
      obtain ⟨r, hr⟩ := coerceValue_strict_total fl v .int hcf
      simp only [validate, hr]
      split_ifs <;> exact ⟨_, rfl⟩
    | float fl en ln =>
      simp only [coerceFree, Bool.not_eq_true'] at hcf
      obtain ⟨r, hr⟩ := coerceValue_strict_total fl v .float hcf
      simp only [validate, hr]
      split_ifs <;> exact ⟨_, rfl⟩
    | boolean fl en =>
      simp only [coerceFree, Bool.not_eq_true'] at hcf
      obtain ⟨r, hr⟩ := coerceValue_strict_total fl v .bool hcf
      simp only [validate, hr]
      split_ifs <;> exact ⟨_, rfl⟩
    | object fl body add =>
      simp only [coerceFree, Bool.and_eq_true, Bool.not_eq_true'] at hcf
      obtain ⟨hc, hcb⟩ := hcf
      obtain ⟨r, hr⟩ := coerceValue_strict_total fl v .dict hc
      simp only [validate, hr]
      by_cases h1 : (!r.state) = true
      · exact ⟨r, by simp [h1]⟩
      · simp only [h1, Bool.false_eq_true, if_false]
        by_cases h2 : (fl.nullable && v.isNull) = true
        · exact ⟨r, by simp [h2]⟩
        · simp only [h2, Bool.false_eq_true, if_false]
          have h1s : r.state = true := by simpa using h1
          obtain ⟨hre, hiv⟩ := coerceValue_strict_ok fl v .dict r hc hr h1s
            (by simpa using h2)
          obtain ⟨es, hv⟩ := isinst_dict v hiv
          subst hv hre
          have hsub : ∀ k cs, (k, Sum.inl cs) ∈ body → ∀ v2, ∃ r2,
              validate m cs v2 = .ok r2 := by
            intro k cs hm v2
            have hlt : sizeOf cs < n := by
              have a1 := sizeOf_field_lt k cs body hm
              have : sizeOf body < sizeOf (Schema.object fl body add) := by
                simp only [Schema.object.sizeOf_spec]
                omega
              omega
            exact ih cs hlt (coerceFree_fields_mem body hcb k cs hm) v2
          obtain ⟨y, hy⟩ := validateFields_total m es body hsub
          simp only [VResult.ok, hy]
          rcases y with e | out
          · exact ⟨_, rfl⟩
          · simp only
            split_ifs
            · rcases hf : es.find? (fun kv => !(body.any (fun bf => bf.1 == kv.1)))
                with _ | kv <;> simp only [hf] <;> exact ⟨_, rfl⟩
            · exact ⟨_, rfl⟩
    | array fl ln item =>
      simp only [coerceFree, Bool.and_eq_true, Bool.not_eq_true'] at hcf
      obtain ⟨hc, hci⟩ := hcf
      obtain ⟨r, hr⟩ := coerceValue_strict_total fl v .list hc
      simp only [validate, hr]
      by_cases h1 : (!r.state) = true
      · exact ⟨r, by simp [h1]⟩
      · simp only [h1, Bool.false_eq_true, if_false]
        by_cases h2 : (fl.nullable && v.isNull) = true
        · exact ⟨r, by simp [h2]⟩
        · simp only [h2, Bool.false_eq_true, if_false]
          have h1s : r.state = true := by simpa using h1
          obtain ⟨hre, hiv⟩ := coerceValue_strict_ok fl v .list r hc hr h1s
            (by simpa using h2)
          obtain ⟨xs, hv⟩ := isinst_list v hiv
          subst hv hre
          have hitem : ∀ v2, ∃ r2, validate m item v2 = .ok r2 := by
            intro v2
            have hlt : sizeOf item < n := by
              have : sizeOf item < sizeOf (Schema.array fl ln item) := by
                simp only [Schema.array.sizeOf_spec]
                omega
              omega
            exact ih item hlt hci v2
          obtain ⟨y, hy⟩ := validateItems_total m item hitem xs
          simp only [VResult.ok]
          split_ifs
          · exact ⟨_, rfl⟩
          · simp only [hy]
            rcases y with e | ws <;> exact ⟨_, rfl⟩
    | oneOf fl alts =>
      simp only [coerceFree, Bool.and_eq_true, Bool.not_eq_true'] at hcf
      obtain ⟨hc, hca⟩ := hcf
      simp only [validate]
      split_ifs
      · exact ⟨_, rfl⟩
      · have halts : ∀ a, a ∈ alts → ∃ r2, validate m a v = .ok r2 := by
          intro a hm
          have hlt : sizeOf a < n := by
            have a1 := sizeOf_alt_lt a alts hm
            have : sizeOf alts < sizeOf (Schema.oneOf fl alts) := by
              simp only [Schema.oneOf.sizeOf_spec]
              omega
            omega
          exact ih a hlt (coerceFree_alts_mem alts hca a hm) v
        obtain ⟨y, hy⟩ := validateAlts_total m v alts halts
        simp only [hy]
        rcases y with r2 | errs <;> exact ⟨_, rfl⟩

/-- C1 counterexample: for Object({"name": String(), "age": Integer()}) and the input mapping containing only a non-string "name", the declared field "name" is processed first and fails, so the returned failure has kind "coerce" and path ["name"] — not kind "required" with path ["age"] as the claim, read for every input lacking the key, would require. -/
theorem C1_counterexample :
    resFails (validate (fun _ _ => true)
        (mkObject [("name", .inl mkString), ("age", .inl mkInteger)] false)
        (.obj [("name", .int 5)])) "coerce" = true ∧
    resPath (validate (fun _ _ => true)
        (mkObject [("name", .inl mkString), ("age", .inl mkInteger)] false)
        (.obj [("name", .int 5)])) = ["name"] ∧
    resFails (validate (fun _ _ => true)
        (mkObject [("name", .inl mkString), ("age", .inl mkInteger)] false)
        (.obj [("name", .int 5)])) "required" = false := by
  refine ⟨?_, ?_, ?_⟩ <;>
    simp [validate, validateFields, mkObject, mkString, mkInteger, coerceValue,
          enumValidate, lengthValidate, isinst, jlookup, SchemaFlags.base,
          LengthState.base, VResult.update, VResult.ok, VResult.err,
          VResult.invalidate, JValue.isNull, stringLength, intLength, resFails,
          resPath, VResult.failsWith, VResult.errKind, VError.validation,
          VError.path, VError.inherit, VError.message, VError.cause, errOf]

/-- C1 amended: for every Object schema, when a declared non-optional schema field is missing from the input mapping and every declared field before it processes successfully, validation fails with kind "required" and the one-segment path [fieldName]. -/
theorem C1_required_missing_field :
    ∀ (m : String → String → Bool) (fl : SchemaFlags)
      (pre rest : List (String × (Schema ⊕ JValue))) (f : String) (cs : Schema)
      (add : Bool) (entries : List (String × JValue)),
      prefixOkB m entries pre = true →
      cs.flags.optional = false →
      jhasKey f entries = false →
      resFails (validate m (.object fl (pre ++ (f, .inl cs) :: rest) add)
          (.obj entries)) "required" = true ∧
      resPath (validate m (.object fl (pre ++ (f, .inl cs) :: rest) add)
          (.obj entries)) = [f] := by
  intro m fl pre rest f cs add entries hpre hopt habs
  have hcv := coerceValue_obj fl entries
  have happ := validateFields_append m entries pre ((f, .inl cs) :: rest)
  unfold prefixOkB at hpre
  rcases h1 : validateFields m entries pre with e | r
  · rw [h1] at hpre; simp at hpre
  · rcases r with e | out1
    · rw [h1] at hpre; simp at hpre
    · rw [h1] at happ
      simp only at happ
      have hsub : validateFields m entries ((f, .inl cs) :: rest) =
          .ok (.inl (.mk ("expected " ++ f ++ " to be present") [f] "required" [])) := by
        simp only [validateFields, jlookup_none_of_not_hasKey f entries habs, hopt]
        simp
      rw [hsub] at happ
      have happ2 : validateFields m entries (pre ++ (f, Sum.inl cs) :: rest) =
          .ok (.inl (.mk ("expected " ++ f ++ " to be present") [f] "required" [])) := by
        rw [happ]
      simp only [validate, hcv]
      simp [VResult.ok, VResult.invalidate, JValue.isNull, resFails, resPath,
            VResult.failsWith, VResult.errKind, VError.validation, errOf, VError.path,
            happ2]

/-- C1 witness: the spec scenario Object({"name": String(), "age": Integer()}).error({"name": "Ann"}) — kind required, path ["age"]. -/
theorem C1_witness :
    resFails (validate (fun _ _ => true)
        (.object .base ([("name", .inl mkString)] ++ ("age", .inl mkInteger) :: [])
          false)
        (.obj [("name", .str "Ann")])) "required" = true ∧
    resPath (validate (fun _ _ => true)
        (.object .base ([("name", .inl mkString)] ++ ("age", .inl mkInteger) :: [])
          false)
        (.obj [("name", .str "Ann")])) = ["age"] :=
  C1_required_missing_field (fun _ _ => true) .base [("name", .inl mkString)] [] "age" mkInteger false
    [("name", .str "Ann")]
    (by simp [prefixOkB, validateFields, validate, jlookup, coerceValue, enumValidate,
              lengthValidate, isinst, mkString, SchemaFlags.base, LengthState.base,
              VResult.update, VResult.ok, JValue.isNull, stringLength])
    rfl rfl

/-- C2: on every successful Object validation the success value is a freshly built mapping whose keys are all declared keys — undeclared input properties never appear in it (the model is functional, so the caller input is unchanged by construction; the content of the claim is that the result is the fresh rebuild of the declared, validated fields, not the input). -/
theorem C2_object_success_only_declared :
    ∀ (m : String → String → Bool) (fl : SchemaFlags)
      (body : List (String × (Schema ⊕ JValue))) (add : Bool)
      (entries : List (String × JValue)) (r : VResult),
      validate m (.object fl body add) (.obj entries) = .ok r → r.state = true →
      ∃ out, r.data = .obj out ∧
        (∀ k, k ∈ out.map Prod.fst → k ∈ body.map Prod.fst) := by
  intro m fl body add entries r h hs
  simp only [validate, coerceValue_obj] at h
  simp [VResult.ok, JValue.isNull] at h
  split at h
  · simp at h
  · injection h with h
    rw [← h] at hs
    simp [VResult.invalidate] at hs
  · rename_i out heq
    split at h
    · split at h
      · injection h with h
        rw [← h] at hs
        simp [VResult.invalidate] at hs
      · injection h with h
        subst h
        exact ⟨out, rfl, validateFields_keys m entries body out heq⟩
    · injection h with h
      subst h
      exact ⟨out, rfl, validateFields_keys m entries body out heq⟩

/-- C2 witness: with additional properties allowed, validating {"a": "x", "b": 1} against Object({"a": String()}) succeeds with the fresh mapping {"a": "x"} — the undeclared key "b" is dropped, so the result is not the input. -/
theorem C2_witness :
    ∃ out, (VResult.ok (.obj [("a", .str "x")]) false).data = .obj out ∧
      (∀ k, k ∈ out.map Prod.fst →
        k ∈ ([("a", Sum.inl mkString)] :
            List (String × (Schema ⊕ JValue))).map Prod.fst) :=
  C2_object_success_only_declared (fun _ _ => true) .base [("a", .inl mkString)] true
    [("a", .str "x"), ("b", .int 1)] (VResult.ok (.obj [("a", .str "x")]) false)
    (by simp [validate, validateFields, coerceValue, enumValidate, lengthValidate,
              isinst, jlookup, mkString, SchemaFlags.base, LengthState.base,
              VResult.update, VResult.ok, JValue.isNull, stringLength])
    rfl

/-- C5: OneOf semantics — the alternatives are tried in declared order and the first success is returned verbatim; when every alternative fails, the result is a single failure of kind "oneOf" whose cause list is the ordered list of every alternative error. -/
theorem C5_oneOf_semantics :
    (∀ (m : String → String → Bool) (fl : SchemaFlags) (pre post : List Schema)
       (a : Schema) (v : JValue) (r : VResult),
      (fl.nullable && v.isNull) = false → allFailB m v pre = true →
      validate m a v = .ok r → r.state = true →
      validate m (.oneOf fl (pre ++ a :: post)) v = .ok r) ∧
    (∀ (m : String → String → Bool) (fl : SchemaFlags) (alts : List Schema)
       (v : JValue),
      (fl.nullable && v.isNull) = false → allFailB m v alts = true →
      validate m (.oneOf fl alts) v =
        .ok (VResult.err (.mk "value didn't match any of the schemas" [] "oneOf"
          (altErrors m v alts)))) := by
  constructor
  · intro m fl pre post a v r hnull hall hv hs
    simp only [validate, hnull, Bool.false_eq_true, if_false]
    rw [validateAlts_first_success m v pre a post r hall hv hs]
  · intro m fl alts v hnull hall
    simp only [validate, hnull, Bool.false_eq_true, if_false]
    rw [validateAlts_all_fail m v alts hall]

/-- C5 witness: OneOf(Integer(), Boolean()).error("x") — kind oneOf, cause list of length 2 holding the Integer error then the Boolean error. -/
theorem C5_witness :
    (validate (fun _ _ => true) (.oneOf .base [mkInteger, mkBoolean]) (.str "x") =
      .ok (VResult.err (.mk "value didn't match any of the schemas" [] "oneOf"
        (altErrors (fun _ _ => true) (.str "x") [mkInteger, mkBoolean])))) ∧
    (altErrors (fun _ _ => true) (.str "x") [mkInteger, mkBoolean]).length = 2 ∧
    altErrors (fun _ _ => true) (.str "x") [mkInteger, mkBoolean] =
      [.mk "value is not of type int" [] "coerce" [],
       .mk "value is not of type bool" [] "coerce" []] := by
  refine ⟨?_, ?_, ?_⟩
  · exact C5_oneOf_semantics.2 (fun _ _ => true) .base [mkInteger, mkBoolean] (.str "x") rfl
      (by simp [allFailB, validate, mkInteger, mkBoolean, coerceValue, enumValidate,
                lengthValidate, isinst, SchemaFlags.base, LengthState.base,
                VResult.update, VResult.ok, VResult.err, JValue.isNull, intLength])
  · simp [altErrors]
  · simp [altErrors, validate, mkInteger, mkBoolean, coerceValue, enumValidate,
          lengthValidate, isinst, SchemaFlags.base, LengthState.base,
          VResult.update, VResult.ok, VResult.err, JValue.isNull, intLength,
          errOf, PyType.name]

/-- C9 counterexample: with coercion enabled, validating the malformed JSON text "\x7b" against an Object schema raises the JSON decode error from the string-to-mapping branch of the coercion primitive — an abrupt failure that is not the generic hope-and-pray cast path. -/
theorem C9_counterexample :
    validate (fun _ _ => true) ((mkObject [] false).coerce) (.str "\x7b") =
        .error .jsonError ∧
      PyExc.jsonError ≠ PyExc.castError := by
  constructor
  · have hj : jsonLoads "\x7b" = none := by rfl
    simp [validate, mkObject, Schema.coerce, Schema.withFlags, Schema.flags,
          coerceValue, SchemaFlags.base, JValue.isNull, hj]
  · decide

/-- C9 amended: validation never raises for a data-shape mismatch — whenever the coerce flag is clear on every node of the schema tree, validate returns a ValidationResult on every input; abrupt failures can arise only from the coercion machinery (the generic cast path, the JSON branch, or traversing a JSON-decoded non-container). -/
theorem C9_no_raise_without_coercion :
    ∀ (m : String → String → Bool) (s : Schema) (v : JValue),
      coerceFree s = true → ∃ r, validate m s v = .ok r :=
  fun m s v h => validate_total m s h v

/-- C9 witness: a strict Integer schema returns a result (rather than raising) on a string input. -/
theorem C9_witness :
    ∃ r, validate (fun _ _ => true) mkInteger (.str "x") = .ok r :=
  C9_no_raise_without_coercion (fun _ _ => true) mkInteger (.str "x")
    (by simp [coerceFree, mkInteger, SchemaFlags.base])

end Pyaddict

namespace Pyaddict

theorem coerceValue_bypass (fl : SchemaFlags) (v : JValue) (tgt : PyType)
    (h : (fl.nullable && v.isNull) = true) :
    coerceValue fl v tgt = .ok (VResult.ok fl.dflt true) := by
  unfold coerceValue
  rw [if_pos h]

theorem isinst_not_null (w : JValue) (tgt : PyType) (h : isinst w tgt = true) :
    w.isNull = false := by
  cases w <;> cases tgt <;> simp_all [isinst, JValue.isNull]

theorem coerceValue_strict_of_isinst (fl : SchemaFlags) (w : JValue) (tgt : PyType)
    (hc : fl.coerce = false) (hb : (fl.nullable && w.isNull) = false)
    (hi : isinst w tgt = true) :
    coerceValue fl w tgt = .ok (VResult.ok w false) := by
  unfold coerceValue
  rw [hb]
  simp [hc, hi]

theorem pyIntCast_shape (v w : JValue) (h : pyIntCast v = .ok w) :
    isinst w .int = true := by
  cases v <;> simp only [pyIntCast] at h
  case null => simp at h
  case bool => injection h with h; subst h; simp [isinst]
  case int => injection h with h; subst h; simp [isinst]
  case float => injection h with h; subst h; simp [isinst]
  case str s =>
    rcases hp : pyParseInt s with _ | n <;> rw [hp] at h
    · simp at h
    · simp only at h
      injection h with h
      subst h
      simp [isinst]
  case arr => simp at h
  case obj => simp at h

theorem pyFloatCast_shape (v w : JValue) (h : pyFloatCast v = .ok w) :
    isinst w .float = true := by
  cases v <;> simp only [pyFloatCast] at h
  case null => simp at h
  case bool => injection h with h; subst h; simp [isinst]
  case int => injection h with h; subst h; simp [isinst]
  case float => injection h with h; subst h; simp [isinst]
  case str s =>
    rcases hp : pyParseFloat s with _ | q <;> rw [hp] at h
    · simp at h
    · simp only at h
      injection h with h
      subst h
      simp [isinst]
  case arr => simp at h
  case obj => simp at h

theorem pyStrCast_shape (v w : JValue) (h : pyStrCast v = .ok w) :
    isinst w .str = true := by
  simp only [pyStrCast] at h
  injection h with h
  subst h
  simp [isinst]

theorem pyBoolCast_shape (v w : JValue) (h : pyBoolCast v = .ok w) :
    isinst w .bool = true := by
  simp only [pyBoolCast] at h
  injection h with h
  subst h
  simp [isinst]

theorem pyCast_scalar_shape (tgt : PyType) (v w : JValue)
    (h : pyCast tgt v = .ok w) (hd : tgt ≠ .dict) (hl : tgt ≠ .list) :
    isinst w tgt = true := by
  cases tgt
  case str => exact pyStrCast_shape v w h
  case int => exact pyIntCast_shape v w h
  case float => exact pyFloatCast_shape v w h
  case bool => exact pyBoolCast_shape v w h
  case dict => exact absurd rfl hd
  case list => exact absurd rfl hl

end Pyaddict

namespace Pyaddict

theorem coerceValue_scalar_shape (fl : SchemaFlags) (v : JValue) (tgt : PyType)
    (r0 : VResult) (h : coerceValue fl v tgt = .ok r0) (hs : r0.state = true)
    (hb : (fl.nullable && v.isNull) = false)
    (hd : tgt ≠ .dict) (hl : tgt ≠ .list) :
    isinst r0.data tgt = true := by
  by_cases hc : fl.coerce = false
  · obtain ⟨hre, hi⟩ := coerceValue_strict_ok fl v tgt r0 hc h hs hb
    rw [hre]
    exact hi
  · simp only [Bool.not_eq_false] at hc
    unfold coerceValue at h
    rw [hb] at h
    simp only [hc, Bool.not_true, Bool.false_eq_true, if_false] at h
    have hgen : ∀ w2 : JValue, Except.map (fun w => VResult.ok w false)
        (pyCast tgt v) = .ok r0 → isinst r0.data tgt = true := by
      intro _ hm
      rcases hw : pyCast tgt v with e | w <;> rw [hw] at hm
      · simp [Except.map] at hm
      · simp only [Except.map] at hm
        injection hm with hm
        rw [← hm]
        exact pyCast_scalar_shape tgt v w hw hd hl
    rcases v with _ | b | n | q | s | xs | es
    case neg.str =>
      simp only at h
      by_cases ht : (tgt == .bool) = true
      · have ht2 : tgt = .bool := by cases tgt <;> simp_all
        subst ht2
        rw [if_pos ht] at h
        split_ifs at h <;> injection h with h <;> subst h <;>
          simp_all [VResult.ok, VResult.err, isinst]
      · simp only [ht] at h
        simp only [Bool.false_eq_true, if_false] at h
        have ht3 : (tgt == .dict || tgt == .list) = false := by
          cases tgt <;> simp_all
        rw [ht3] at h
        simp only [Bool.false_eq_true, if_false] at h
        exact hgen r0.data h
    all_goals (simp only at h; exact hgen r0.data h)

end Pyaddict

namespace Pyaddict

theorem stripCoerce_flags (s : Schema) :
    (stripCoerce s).flags = { s.flags with coerce := false } := by
  cases s <;> simp [stripCoerce, Schema.flags]

theorem jlookup_mem (k : String) (l : List (String × JValue)) (w : JValue)
    (h : jlookup k l = some w) : k ∈ l.map Prod.fst := by
  induction l with
  | nil => simp [jlookup] at h
  | cons hd tl ih =>
    rcases hd with ⟨k2, v2⟩
    simp only [jlookup] at h
    by_cases he : (k2 == k) = true
    · simp only [List.map_cons, List.mem_cons]
      left
      exact (beq_iff_eq.mp he).symm ▸ rfl
    · rw [if_neg he] at h
      simp only [List.map_cons, List.mem_cons]
      right
      exact ih h

theorem jlookup_not_mem (k : String) (l : List (String × JValue))
    (h : k ∉ l.map Prod.fst) : jlookup k l = none := by
  induction l with
  | nil => rfl
  | cons hd tl ih =>
    rcases hd with ⟨k2, v2⟩
    simp only [List.map_cons, List.mem_cons] at h
    push_neg at h
    simp only [jlookup]
    rw [if_neg (by simp only [beq_iff_eq]; exact fun e => h.1 e.symm)]
    exact ih h.2

theorem nodupKeys_cons {α : Type} (k : String) (x : α)
    (tl : List (String × α)) (h : nodupKeys ((k, x) :: tl) = true) :
    (∀ kv, kv ∈ tl → (kv.1 == k) = false) ∧ nodupKeys tl = true := by
  simp only [nodupKeys, Bool.and_eq_true, Bool.not_eq_true'] at h
  refine ⟨?_, h.2⟩
  intro kv hm
  rcases h with ⟨h1, _⟩
  by_cases he : (kv.1 == k) = true
  · exfalso
    have : tl.any (fun kv => kv.1 == k) = true := by
      simp only [List.any_eq_true]
      exact ⟨kv, hm, he⟩
    rw [this] at h1
    simp at h1
  · simpa using he

end Pyaddict

namespace Pyaddict

theorem validateAlts_inl (m : String → String → Bool) (v : JValue) :
    ∀ (alts : List Schema) (r : VResult),
      validateAlts m v alts = .ok (.inl r) → r.state = true := by
  intro alts
  induction alts with
  | nil => intro r h; simp [validateAlts] at h
  | cons a tl ih =>
    intro r h
    simp only [validateAlts] at h
    rcases hv : validate m a v with e | ra <;> rw [hv] at h
    · simp at h
    · simp only at h
      by_cases hs : ra.state = true
      · rw [if_pos hs] at h
        injection h with h
        injection h with h
        rw [← h]
        exact hs
      · rw [if_neg hs] at h
        rcases ht : validateAlts m v tl with e | y <;> rw [ht] at h
        · simp at h
        · rcases y with r2 | errs
          · simp only at h
            injection h with h
            injection h with h
            rw [← h]
            exact ih r2 ht
          · simp at h

theorem validateAlts_wins (m : String → String → Bool) (v : JValue) :
    ∀ alts : List Schema,
      (∀ a, a ∈ alts → ∃ rr, validate m a v = .ok rr) →
      (∃ a, a ∈ alts ∧ ∃ rr, validate m a v = .ok rr ∧ rr.state = true) →
      ∃ res, validateAlts m v alts = .ok (.inl res) ∧ res.state = true := by
  intro alts
  induction alts with
  | nil => intro _ hw; simp at hw
  | cons a tl ih =>
    intro htot hw
    simp only [validateAlts]
    rcases htot a (List.mem_cons_self _ _) with ⟨ra, hra⟩
    rw [hra]
    by_cases hs : ra.state = true
    · exact ⟨ra, by simp [hs], hs⟩
    · simp only [hs, if_false]
      have hw2 : ∃ a2, a2 ∈ tl ∧ ∃ rr, validate m a2 v = .ok rr ∧ rr.state = true := by
        rcases hw with ⟨a2, hm, rr, hrr, hst⟩
        rcases List.mem_cons.mp hm with heq | hm2
        · exfalso
          rw [heq] at hrr
          rw [hra] at hrr
          injection hrr with hrr
          rw [← hrr] at hst
          exact hs hst
        · exact ⟨a2, hm2, rr, hrr, hst⟩
      rcases ih (fun b hb => htot b (List.mem_cons_of_mem a hb)) hw2 with
        ⟨res, hres, hstate⟩
      rw [hres]
      exact ⟨res, rfl, hstate⟩

end Pyaddict

namespace Pyaddict

theorem stripFields_coerceFree
    (body : List (String × (Schema ⊕ JValue)))
    (h : ∀ k cs, (k, Sum.inl cs) ∈ body → coerceFree (stripCoerce cs) = true) :
    coerceFreeFields (stripFields body) = true := by
  induction body with
  | nil => rfl
  | cons hd tl ih =>
    rcases hd with ⟨k2, cs | lit⟩
    · simp only [stripFields, coerceFreeFields, Bool.and_eq_true]
      exact ⟨h k2 cs (List.mem_cons_self _ _),
        ih (fun k cs2 hm => h k cs2 (List.mem_cons_of_mem _ hm))⟩
    · simp only [stripFields, coerceFreeFields]
      exact ih (fun k cs2 hm => h k cs2 (List.mem_cons_of_mem _ hm))

theorem stripAlts_coerceFree (alts : List Schema)
    (h : ∀ a, a ∈ alts → coerceFree (stripCoerce a) = true) :
    coerceFreeAlts (stripAlts alts) = true := by
  induction alts with
  | nil => rfl
  | cons a tl ih =>
    simp only [stripAlts, coerceFreeAlts, Bool.and_eq_true]
    exact ⟨h a (List.mem_cons_self _ _),
      ih (fun b hb => h b (List.mem_cons_of_mem _ hb))⟩

theorem stripCoerce_coerceFree : ∀ s : Schema, coerceFree (stripCoerce s) = true := by
  suffices H : ∀ (n : Nat) (s : Schema), sizeOf s < n →
      coerceFree (stripCoerce s) = true by
    exact fun s => H (sizeOf s + 1) s (by omega)
  intro n
  induction n with
  | zero => intro s h; exact absurd h (Nat.not_lt_zero _)
  | succ n ih =>
    intro s hsz
    cases s with
    | string fl en ln rx => simp [stripCoerce, coerceFree]
    | integer fl en ln => simp [stripCoerce, coerceFree]
    | float fl en ln => simp [stripCoerce, coerceFree]
    | boolean fl en => simp [stripCoerce, coerceFree]
    | object fl body add =>
      simp only [stripCoerce, coerceFree, Bool.and_eq_true, Bool.not_eq_true']
      refine ⟨trivial, stripFields_coerceFree body ?_⟩
      intro k cs hm
      have hlt : sizeOf cs < n := by
        have a1 := sizeOf_field_lt k cs body hm
        have : sizeOf body < sizeOf (Schema.object fl body add) := by
          simp only [Schema.object.sizeOf_spec]
          omega
        omega
      exact ih cs hlt
    | array fl ln item =>
      simp only [stripCoerce, coerceFree, Bool.and_eq_true, Bool.not_eq_true']
      refine ⟨trivial, ?_⟩
      have hlt : sizeOf item < n := by
        have : sizeOf item < sizeOf (Schema.array fl ln item) := by
          simp only [Schema.array.sizeOf_spec]
          omega
        omega
      exact ih item hlt
    | oneOf fl alts =>
      simp only [stripCoerce, coerceFree, Bool.and_eq_true, Bool.not_eq_true']
      refine ⟨trivial, stripAlts_coerceFree alts ?_⟩
      intro a hm
      have hlt : sizeOf a < n := by
        have a1 := sizeOf_alt_lt a alts hm
        have : sizeOf alts < sizeOf (Schema.oneOf fl alts) := by
          simp only [Schema.oneOf.sizeOf_spec]
          omega
        omega
      exact ih a hlt

end Pyaddict

namespace Pyaddict

theorem roundtripFields (m : String → String → Bool) :
    ∀ (body : List (String × (Schema ⊕ JValue)))
      (entries out entries2 : List (String × JValue)),
      nodupKeys body = true →
      validateFields m entries body = .ok (.inr out) →
      (∀ k, k ∈ body.map Prod.fst → jlookup k entries2 = jlookup k out) →
      (∀ k cs inv kr, (k, Sum.inl cs) ∈ body → jlookup k entries = some inv →
        validate m cs inv = .ok kr → kr.state = true →
        ∃ r2, validate m (stripCoerce cs) kr.data = .ok r2 ∧ r2.state = true) →
      ∃ out2, validateFields m entries2 (stripFields body) = .ok (.inr out2) := by
  intro body
  induction body with
  | nil =>
    intro entries out entries2 _ _ _ _
    exact ⟨[], by simp [stripFields, validateFields]⟩
  | cons hd tl ih =>
    intro entries out entries2 hnd h hagr hmem
    rcases hd with ⟨k2, cs | lit⟩
    · obtain ⟨hnd1, hnd2⟩ := nodupKeys_cons k2 _ tl hnd
      simp only [validateFields] at h
      rcases hl : jlookup k2 entries with _ | inv <;> rw [hl] at h <;>
        (try simp only at h)
      · by_cases hopt : (!cs.flags.optional) = true
        · rw [if_pos hopt] at h
          simp at h
        · rw [if_neg hopt] at h
          have hkeys := validateFields_keys m entries tl out h
          have hk2nout : jlookup k2 out = none := by
            apply jlookup_not_mem
            intro hmem2
            have := hkeys k2 hmem2
            simp only [List.mem_map] at this
            rcases this with ⟨kv, hkv, hfst⟩
            have := hnd1 kv hkv
            rw [hfst] at this
            simp at this
          have hl2 : jlookup k2 entries2 = none := by
            rw [hagr k2 (by simp), hk2nout]
          simp only [stripFields, validateFields, hl2]
          have hopt2 : (!(stripCoerce cs).flags.optional) = false := by
            rw [stripCoerce_flags]
            simpa using hopt
          rw [hopt2]
          simp only [Bool.false_eq_true, if_false]
          exact ih entries out entries2 hnd2 h
            (fun k hk => hagr k (by simp [hk]))
            (fun k cs2 inv kr hm => hmem k cs2 inv kr (List.mem_cons_of_mem _ hm))
      · rcases hv : validate m cs inv with e | kr <;> rw [hv] at h <;>
          (try simp only at h)
        · simp at h
        · by_cases hst : (!kr.state) = true
          · rw [if_pos hst] at h
            simp at h
          · rw [if_neg hst] at h
            rcases h1 : validateFields m entries tl with e | y <;> rw [h1] at h <;>
              (try simp only at h)
            · simp at h
            · rcases y with e | outTl
              · simp at h
              · injection h with h
                injection h with h
                have hout : out = (k2, kr.data) :: outTl := h.symm
                have hkrs : kr.state = true := by simpa using hst
                obtain ⟨r2, hr2, hr2s⟩ := hmem k2 cs inv kr
                  (List.mem_cons_self _ _) hl hv hkrs
                have hl2 : jlookup k2 entries2 = some kr.data := by
                  rw [hagr k2 (by simp), hout]
                  simp [jlookup]
                simp only [stripFields, validateFields, hl2, hr2]
                rw [if_neg (by simp [hr2s])]
                have hkeysTl := validateFields_keys m entries tl outTl h1
                have hagr2 : ∀ k, k ∈ tl.map Prod.fst →
                    jlookup k entries2 = jlookup k outTl := by
                  intro k hk
                  have hkne : (k2 == k) = false := by
                    simp only [List.mem_map] at hk
                    rcases hk with ⟨kv, hkv, hfst⟩
                    have h5 := hnd1 kv hkv
                    rw [hfst] at h5
                    simp only [beq_eq_false_iff_ne] at h5 ⊢
                    exact fun he => h5 he.symm
                  rw [hagr k (by simp only [List.map_cons, List.mem_cons]; right; exact hk), hout]
                  simp [jlookup, hkne]
                obtain ⟨out2, hout2⟩ := ih entries outTl entries2 hnd2 h1 hagr2
                  (fun k cs2 inv2 kr2 hm => hmem k cs2 inv2 kr2
                    (List.mem_cons_of_mem _ hm))
                rw [hout2]
                exact ⟨(k2, r2.data) :: out2, rfl⟩
    · obtain ⟨hnd1, hnd2⟩ := nodupKeys_cons k2 _ tl hnd
      simp only [validateFields] at h
      rcases hl : jlookup k2 entries with _ | inv <;> rw [hl] at h <;>
        (try simp only at h)
      · simp at h
      · by_cases hp : (!pyEq inv lit) = true
        · rw [if_pos hp] at h
          simp at h
        · rw [if_neg hp] at h
          rcases h1 : validateFields m entries tl with e | y <;> rw [h1] at h <;>
            (try simp only at h)
          · simp at h
          · rcases y with e | outTl
            · simp at h
            · injection h with h
              injection h with h
              have hout : out = (k2, inv) :: outTl := h.symm
              have hl2 : jlookup k2 entries2 = some inv := by
                rw [hagr k2 (by simp), hout]
                simp [jlookup]
              simp only [stripFields, validateFields, hl2]
              rw [if_neg hp]
              have hagr2 : ∀ k, k ∈ tl.map Prod.fst →
                  jlookup k entries2 = jlookup k outTl := by
                intro k hk
                have hkne : (k2 == k) = false := by
                  simp only [List.mem_map] at hk
                  rcases hk with ⟨kv, hkv, hfst⟩
                  have h5 := hnd1 kv hkv
                  rw [hfst] at h5
                  simp only [beq_eq_false_iff_ne] at h5 ⊢
                  exact fun he => h5 he.symm
                rw [hagr k (by simp only [List.map_cons, List.mem_cons]; right; exact hk), hout]
                simp [jlookup, hkne]
              obtain ⟨out2, hout2⟩ := ih entries outTl entries2 hnd2 h1 hagr2
                (fun k cs2 inv2 kr2 hm => hmem k cs2 inv2 kr2
                  (List.mem_cons_of_mem _ hm))
              rw [hout2]
              exact ⟨(k2, inv) :: out2, rfl⟩

end Pyaddict

namespace Pyaddict

theorem roundtripItems (m : String → String → Bool) (item : Schema) :
    ∀ (xs ws : List JValue),
      validateItems m item xs = .ok (.inr ws) →
      (∀ x r, x ∈ xs → validate m item x = .ok r → r.state = true →
        ∃ r2, validate m (stripCoerce item) r.data = .ok r2 ∧ r2.state = true) →
      (∃ ws2, validateItems m (stripCoerce item) ws = .ok (.inr ws2)) ∧
        ws.length = xs.length := by
  intro xs
  induction xs with
  | nil =>
    intro ws h _
    simp only [validateItems] at h
    injection h with h
    injection h with h
    rw [← h]
    exact ⟨⟨[], by simp [validateItems]⟩, rfl⟩
  | cons x tl ih =>
    intro ws h hmem
    simp only [validateItems] at h
    rcases hv : validate m item x with e | r <;> rw [hv] at h <;>
      (try simp only at h)
    · simp at h
    · by_cases hst : (!r.state) = true
      · rw [if_pos hst] at h
        simp at h
      · rw [if_neg hst] at h
        rcases h1 : validateItems m item tl with e | y <;> rw [h1] at h <;>
          (try simp only at h)
        · simp at h
        · rcases y with e | wsTl
          · simp at h
          · injection h with h
            injection h with h
            have hws : ws = r.data :: wsTl := h.symm
            have hrs : r.state = true := by simpa using hst
            obtain ⟨r2, hr2, hr2s⟩ := hmem x r (List.mem_cons_self _ _) hv hrs
            obtain ⟨⟨ws2, hws2⟩, hlen⟩ := ih wsTl h1
              (fun x2 rr hm => hmem x2 rr (List.mem_cons_of_mem _ hm))
            subst hws
            constructor
            · simp only [validateItems, hr2]
              rw [if_neg (by simp [hr2s])]
              rw [hws2]
              exact ⟨r2.data :: ws2, rfl⟩
            · simp [hlen]

end Pyaddict

namespace Pyaddict

theorem validateAlts_inl_mem (m : String → String → Bool) (v : JValue) :
    ∀ (alts : List Schema) (r : VResult),
      validateAlts m v alts = .ok (.inl r) →
      ∃ a, a ∈ alts ∧ validate m a v = .ok r := by
  intro alts
  induction alts with
  | nil => intro r h; simp [validateAlts] at h
  | cons a tl ih =>
    intro r h
    simp only [validateAlts] at h
    rcases hv : validate m a v with e | ra <;> rw [hv] at h <;> (try simp only at h)
    · simp at h
    · by_cases hs : ra.state = true
      · rw [if_pos hs] at h
        injection h with h
        injection h with h
        exact ⟨a, List.mem_cons_self _ _, by rw [hv, h]⟩
      · rw [if_neg hs] at h
        rcases ht : validateAlts m v tl with e | y <;> rw [ht] at h <;>
          (try simp only at h)
        · simp at h
        · rcases y with r2 | errs
          · injection h with h
            injection h with h
            rcases ih r2 ht with ⟨a2, hm, hv2⟩
            exact ⟨a2, List.mem_cons_of_mem a hm, by rw [hv2, h]⟩
          · simp at h

theorem stripFields_keys_eq (body : List (String × (Schema ⊕ JValue))) :
    (stripFields body).map Prod.fst = body.map Prod.fst := by
  induction body with
  | nil => rfl
  | cons hd tl ih =>
    rcases hd with ⟨k2, cs | lit⟩ <;> simp [stripFields, ih]

theorem mem_stripAlts (a : Schema) (alts : List Schema) (h : a ∈ alts) :
    stripCoerce a ∈ stripAlts alts := by
  induction alts with
  | nil => simp at h
  | cons b tl ih =>
    rcases List.mem_cons.mp h with heq | hm
    · rw [heq]
      simp [stripAlts]
    · simp only [stripAlts, List.mem_cons]
      right
      exact ih hm

theorem any_of_mem_keys {α : Type} (k : String) (body : List (String × α))
    (h : k ∈ body.map Prod.fst) : (body.any (fun bf => bf.1 == k)) = true := by
  simp only [List.mem_map] at h
  rcases h with ⟨kv, hkv, hfst⟩
  simp only [List.any_eq_true]
  exact ⟨kv, hkv, by simp [hfst]⟩

theorem lengthValidate_state_eq (nb : Bool) (st : LengthState) (len : JValue → Rat)
    (v v2 : JValue) (h1 : v.isNull = v2.isNull) (h2 : len v = len v2) :
    (lengthValidate nb st len v).state = (lengthValidate nb st len v2).state := by
  unfold lengthValidate
  rw [h1, h2]
  rcases st.minVal with _ | m1 <;> rcases st.maxVal with _ | m2 <;>
    dsimp only <;> split_ifs <;> rfl

theorem wfFields_mem :
    ∀ body : List (String × (Schema ⊕ JValue)), wfFields body = true →
      ∀ k cs, (k, Sum.inl cs) ∈ body → wfSchema cs = true := by
  intro body
  induction body with
  | nil => intro _ k cs hm; simp at hm
  | cons hd tl ih =>
    intro h k cs hm
    rcases List.mem_cons.mp hm with heq | hm2
    · rw [← heq] at h
      simp only [wfFields, Bool.and_eq_true] at h
      exact h.1
    · rcases hd with ⟨k2, cs2 | lit⟩
      · simp only [wfFields, Bool.and_eq_true] at h
        exact ih h.2 k cs hm2
      · simp only [wfFields] at h
        exact ih h k cs hm2

theorem wfAlts_mem :
    ∀ alts : List Schema, wfAlts alts = true → ∀ a, a ∈ alts → wfSchema a = true := by
  intro alts
  induction alts with
  | nil => intro _ a hm; simp at hm
  | cons hd tl ih =>
    intro h a hm
    simp only [wfAlts, Bool.and_eq_true] at h
    rcases List.mem_cons.mp hm with heq | hm2
    · rw [heq]; exact h.1
    · exact ih h.2 a hm2

theorem defaultsOkFields_mem (m : String → String → Bool) :
    ∀ body : List (String × (Schema ⊕ JValue)), defaultsOkFields m body = true →
      ∀ k cs, (k, Sum.inl cs) ∈ body → defaultsOk m cs = true := by
  intro body
  induction body with
  | nil => intro _ k cs hm; simp at hm
  | cons hd tl ih =>
    intro h k cs hm
    rcases List.mem_cons.mp hm with heq | hm2
    · rw [← heq] at h
      simp only [defaultsOkFields, Bool.and_eq_true] at h
      exact h.1
    · rcases hd with ⟨k2, cs2 | lit⟩
      · simp only [defaultsOkFields, Bool.and_eq_true] at h
        exact ih h.2 k cs hm2
      · simp only [defaultsOkFields] at h
        exact ih h k cs hm2

theorem defaultsOkAlts_mem (m : String → String → Bool) :
    ∀ alts : List Schema, defaultsOkAlts m alts = true →
      ∀ a, a ∈ alts → defaultsOk m a = true := by
  intro alts
  induction alts with
  | nil => intro _ a hm; simp at hm
  | cons hd tl ih =>
    intro h a hm
    simp only [defaultsOkAlts, Bool.and_eq_true] at h
    rcases List.mem_cons.mp hm with heq | hm2
    · rw [heq]; exact h.1
    · exact ih h.2 a hm2

end Pyaddict

namespace Pyaddict

theorem integer_first_pass (m : String → String → Bool) (fl : SchemaFlags)
    (en : Option (List JValue)) (ln : LengthState) (v : JValue) (r : VResult)
    (h : validate m (.integer fl en ln) v = .ok r) (hs : r.state = true) :
    ((fl.nullable && v.isNull) = true ∧ r.data = fl.dflt) ∨
    ((fl.nullable && v.isNull) = false ∧ ∃ r0, coerceValue fl v .int = .ok r0 ∧
      r0.state = true ∧ r.data = r0.data ∧
      (enumValidate fl.nullable en r0.data).state = true ∧
      (lengthValidate fl.nullable ln intLength r0.data).state = true) := by
  simp only [validate] at h
  rcases hcv : coerceValue fl v .int with e | r0 <;> rw [hcv] at h <;>
    (try simp only at h)
  · simp at h
  · by_cases h1 : (!r0.state) = true
    · rw [if_pos h1] at h
      injection h with h
      rw [← h] at hs
      simp only [Bool.not_eq_true'] at h1
      rw [h1] at hs
      simp at hs
    · rw [if_neg h1] at h
      simp only [Bool.not_eq_true, Bool.not_eq_false] at h1
      by_cases h2 : (fl.nullable && v.isNull) = true
      · rw [if_pos h2] at h
        injection h with h
        left
        refine ⟨h2, ?_⟩
        have := coerceValue_bypass fl v .int h2
        rw [hcv] at this
        injection this with this
        rw [← h, this]
        rfl
      · simp only [Bool.not_eq_true] at h2
        rw [h2] at h
        simp only [Bool.false_eq_true, if_false] at h
        by_cases h3 :
            ((r0.update (enumValidate fl.nullable en r0.data)).state) = false
        · rw [if_pos (by simp [h3])] at h
          injection h with h
          rw [← h] at hs
          rw [h3] at hs
          simp at hs
        · rw [if_neg (by simp [h3])] at h
          injection h with h
          simp only [Bool.not_eq_false] at h3
          have hes : (enumValidate fl.nullable en r0.data).state = true := by
            have := update_state r0 (enumValidate fl.nullable en r0.data)
            rw [h3] at this
            rcases he : (enumValidate fl.nullable en r0.data).state
            · rw [he] at this; simp at this
            · rfl
          have hedata : (r0.update (enumValidate fl.nullable en r0.data)).data
              = r0.data := by
            rw [update_data _ _ hes, enumValidate_data _ _ _ hes]
          have hls : (lengthValidate fl.nullable ln intLength r0.data).state
              = true := by
            rw [← h] at hs
            have := update_state (r0.update (enumValidate fl.nullable en r0.data))
              (lengthValidate fl.nullable ln intLength
                (r0.update (enumValidate fl.nullable en r0.data)).data)
            rw [hs] at this
            rcases hll : (lengthValidate fl.nullable ln intLength
                (r0.update (enumValidate fl.nullable en r0.data)).data).state
            · rw [hll] at this; simp at this
            · rw [hedata] at hll
              exact hll
          right
          refine ⟨h2, r0, rfl, by simpa using h1, ?_, hes, hls⟩
          rw [← h]
          rw [update_data, lengthValidate_data, hedata]
          · rw [hedata]
            exact hls
          · rw [hedata]
            exact hls

theorem integer_second_pass (m : String → String → Bool) (fl2 : SchemaFlags)
    (en : Option (List JValue)) (ln : LengthState) (w : JValue)
    (hc : fl2.coerce = false) (hi : isinst w .int = true)
    (he : (enumValidate fl2.nullable en w).state = true)
    (hl : (lengthValidate fl2.nullable ln intLength w).state = true) :
    ∃ r2, validate m (.integer fl2 en ln) w = .ok r2 ∧ r2.state = true := by
  have hnn : (fl2.nullable && w.isNull) = false := by
    rw [isinst_not_null w .int hi]
    simp
  have hcv := coerceValue_strict_of_isinst fl2 w .int hc hnn hi
  simp only [validate, hcv]
  rw [if_neg (by simp [VResult.ok])]
  rw [hnn]
  simp only [Bool.false_eq_true, if_false]
  have hdata : (VResult.ok w false).data = w := rfl
  rw [hdata]
  have hr1s : ((VResult.ok w false).update
      (enumValidate fl2.nullable en w)).state = true := by
    rw [update_state, he]
    rfl
  rw [if_neg (by simp [hr1s])]
  have hr1d : ((VResult.ok w false).update
      (enumValidate fl2.nullable en w)).data = w := by
    rw [update_data _ _ he, enumValidate_data _ _ _ he]
  rw [hr1d]
  refine ⟨_, rfl, ?_⟩
  rw [update_state, hl, hr1s]
  rfl

end Pyaddict

namespace Pyaddict

theorem float_first_pass (m : String → String → Bool) (fl : SchemaFlags)
    (en : Option (List JValue)) (ln : LengthState) (v : JValue) (r : VResult)
    (h : validate m (.float fl en ln) v = .ok r) (hs : r.state = true) :
    ((fl.nullable && v.isNull) = true ∧ r.data = fl.dflt) ∨
    ((fl.nullable && v.isNull) = false ∧ ∃ r0, coerceValue fl v .float = .ok r0 ∧
      r0.state = true ∧ r.data = r0.data ∧
      (enumValidate fl.nullable en r0.data).state = true ∧
      (lengthValidate fl.nullable ln floatLength r0.data).state = true) := by
  simp only [validate] at h
  rcases hcv : coerceValue fl v .float with e | r0 <;> rw [hcv] at h <;>
    (try simp only at h)
  · simp at h
  · by_cases h1 : (!r0.state) = true
    · rw [if_pos h1] at h
      injection h with h
      rw [← h] at hs
      simp only [Bool.not_eq_true'] at h1
      rw [h1] at hs
      simp at hs
    · rw [if_neg h1] at h
      by_cases h2 : (fl.nullable && v.isNull) = true
      · rw [if_pos h2] at h
        injection h with h
        left
        refine ⟨h2, ?_⟩
        have := coerceValue_bypass fl v .float h2
        rw [hcv] at this
        injection this with this
        rw [← h, this]
        rfl
      · simp only [Bool.not_eq_true] at h2
        rw [h2] at h
        simp only [Bool.false_eq_true, if_false] at h
        by_cases h3 :
            ((r0.update (enumValidate fl.nullable en r0.data)).state) = false
        · rw [if_pos (by simp [h3])] at h
          injection h with h
          rw [← h] at hs
          rw [h3] at hs
          simp at hs
        · rw [if_neg (by simp [h3])] at h
          injection h with h
          simp only [Bool.not_eq_false] at h3
          have hes : (enumValidate fl.nullable en r0.data).state = true := by
            have := update_state r0 (enumValidate fl.nullable en r0.data)
            rw [h3] at this
            rcases he : (enumValidate fl.nullable en r0.data).state
            · rw [he] at this; simp at this
            · rfl
          have hedata : (r0.update (enumValidate fl.nullable en r0.data)).data
              = r0.data := by
            rw [update_data _ _ hes, enumValidate_data _ _ _ hes]
          have hls : (lengthValidate fl.nullable ln floatLength r0.data).state
              = true := by
            rw [← h] at hs
            have := update_state (r0.update (enumValidate fl.nullable en r0.data))
              (lengthValidate fl.nullable ln floatLength
                (r0.update (enumValidate fl.nullable en r0.data)).data)
            rw [hs] at this
            rcases hll : (lengthValidate fl.nullable ln floatLength
                (r0.update (enumValidate fl.nullable en r0.data)).data).state
            · rw [hll] at this; simp at this
            · rw [hedata] at hll
              exact hll
          right
          refine ⟨h2, r0, rfl, by simpa using h1, ?_, hes, hls⟩
          rw [← h]
          rw [update_data, lengthValidate_data, hedata]
          · rw [hedata]
            exact hls
          · rw [hedata]
            exact hls

theorem float_second_pass (m : String → String → Bool) (fl2 : SchemaFlags)
    (en : Option (List JValue)) (ln : LengthState) (w : JValue)
    (hc : fl2.coerce = false) (hi : isinst w .float = true)
    (he : (enumValidate fl2.nullable en w).state = true)
    (hl : (lengthValidate fl2.nullable ln floatLength w).state = true) :
    ∃ r2, validate m (.float fl2 en ln) w = .ok r2 ∧ r2.state = true := by
  have hnn : (fl2.nullable && w.isNull) = false := by
    rw [isinst_not_null w .float hi]
    simp
  have hcv := coerceValue_strict_of_isinst fl2 w .float hc hnn hi
  simp only [validate, hcv]
  rw [if_neg (by simp [VResult.ok])]
  rw [hnn]
  simp only [Bool.false_eq_true, if_false]
  have hdata : (VResult.ok w false).data = w := rfl
  rw [hdata]
  have hr1s : ((VResult.ok w false).update
      (enumValidate fl2.nullable en w)).state = true := by
    rw [update_state, he]
    rfl
  rw [if_neg (by simp [hr1s])]
  have hr1d : ((VResult.ok w false).update
      (enumValidate fl2.nullable en w)).data = w := by
    rw [update_data _ _ he, enumValidate_data _ _ _ he]
  rw [hr1d]
  refine ⟨_, rfl, ?_⟩
  rw [update_state, hl, hr1s]
  rfl

theorem boolean_first_pass (m : String → String → Bool) (fl : SchemaFlags)
    (en : Option (List JValue)) (v : JValue) (r : VResult)
    (h : validate m (.boolean fl en) v = .ok r) (hs : r.state = true) :
    ((fl.nullable && v.isNull) = true ∧ r.data = fl.dflt) ∨
    ((fl.nullable && v.isNull) = false ∧ ∃ r0, coerceValue fl v .bool = .ok r0 ∧
      r0.state = true ∧ r.data = r0.data ∧
      (enumValidate fl.nullable en r0.data).state = true) := by
  simp only [validate] at h
  rcases hcv : coerceValue fl v .bool with e | r0 <;> rw [hcv] at h <;>
    (try simp only at h)
  · simp at h
  · by_cases h1 : (!r0.state) = true
    · rw [if_pos h1] at h
      injection h with h
      rw [← h] at hs
      simp only [Bool.not_eq_true'] at h1
      rw [h1] at hs
      simp at hs
    · rw [if_neg h1] at h
      by_cases h2 : (fl.nullable && v.isNull) = true
      · rw [if_pos h2] at h
        injection h with h
        left
        refine ⟨h2, ?_⟩
        have := coerceValue_bypass fl v .bool h2
        rw [hcv] at this
        injection this with this
        rw [← h, this]
        rfl
      · simp only [Bool.not_eq_true] at h2
        rw [h2] at h
        simp only [Bool.false_eq_true, if_false] at h
        injection h with h
        have hrr : r = r0.update (enumValidate fl.nullable en r0.data) := h.symm
        have hes : (enumValidate fl.nullable en r0.data).state = true := by
          rw [hrr] at hs
          have := update_state r0 (enumValidate fl.nullable en r0.data)
          rw [hs] at this
          rcases he : (enumValidate fl.nullable en r0.data).state
          · rw [he] at this; simp at this
          · rfl
        right
        refine ⟨h2, r0, rfl, by simpa using h1, ?_, hes⟩
        rw [hrr, update_data _ _ hes, enumValidate_data _ _ _ hes]

theorem boolean_second_pass (m : String → String → Bool) (fl2 : SchemaFlags)
    (en : Option (List JValue)) (w : JValue)
    (hc : fl2.coerce = false) (hi : isinst w .bool = true)
    (he : (enumValidate fl2.nullable en w).state = true) :
    ∃ r2, validate m (.boolean fl2 en) w = .ok r2 ∧ r2.state = true := by
  have hnn : (fl2.nullable && w.isNull) = false := by
    rw [isinst_not_null w .bool hi]
    simp
  have hcv := coerceValue_strict_of_isinst fl2 w .bool hc hnn hi
  simp only [validate, hcv]
  rw [if_neg (by simp [VResult.ok])]
  rw [hnn]
  simp only [Bool.false_eq_true, if_false]
  have hdata : (VResult.ok w false).data = w := rfl
  rw [hdata]
  refine ⟨_, rfl, ?_⟩
  rw [update_state, he]
  rfl

end Pyaddict

namespace Pyaddict

theorem string_first_pass (m : String → String → Bool) (fl : SchemaFlags)
    (en : Option (List JValue)) (ln : LengthState) (rx : Option RegexRule)
    (v : JValue) (r : VResult)
    (h : validate m (.string fl en ln rx) v = .ok r) (hs : r.state = true) :
    ((fl.nullable && v.isNull) = true ∧ r.data = fl.dflt) ∨
    ((fl.nullable && v.isNull) = false ∧ ∃ r0, coerceValue fl v .str = .ok r0 ∧
      r0.state = true ∧ r.data = r0.data ∧
      (enumValidate fl.nullable en r0.data).state = true ∧
      (lengthValidate fl.nullable ln stringLength r0.data).state = true ∧
      (match rx with
       | none => True
       | some rule => ∃ s0, r0.data = .str s0 ∧ m rule.pattern s0 = true)) := by
  simp only [validate] at h
  rcases hcv : coerceValue fl v .str with e | r0 <;> rw [hcv] at h <;>
    (try simp only at h)
  · simp at h
  · by_cases h1 : (!r0.state) = true
    · rw [if_pos h1] at h
      injection h with h
      rw [← h] at hs
      simp only [Bool.not_eq_true'] at h1
      rw [h1] at hs
      simp at hs
    · rw [if_neg h1] at h
      by_cases h2 : (fl.nullable && v.isNull) = true
      · rw [if_pos h2] at h
        injection h with h
        left
        refine ⟨h2, ?_⟩
        have := coerceValue_bypass fl v .str h2
        rw [hcv] at this
        injection this with this
        rw [← h, this]
        rfl
      · simp only [Bool.not_eq_true] at h2
        rw [h2] at h
        simp only [Bool.false_eq_true, if_false] at h
        by_cases h3 :
            ((r0.update (enumValidate fl.nullable en r0.data)).state) = false
        · rw [if_pos (by simp [h3])] at h
          injection h with h
          rw [← h] at hs
          rw [h3] at hs
          simp at hs
        · rw [if_neg (by simp [h3])] at h
          simp only [Bool.not_eq_false] at h3
          have hes : (enumValidate fl.nullable en r0.data).state = true := by
            have := update_state r0 (enumValidate fl.nullable en r0.data)
            rw [h3] at this
            rcases he : (enumValidate fl.nullable en r0.data).state
            · rw [he] at this; simp at this
            · rfl
          have hedata : (r0.update (enumValidate fl.nullable en r0.data)).data
              = r0.data := by
            rw [update_data _ _ hes, enumValidate_data _ _ _ hes]
          set r1 := r0.update (enumValidate fl.nullable en r0.data) with hr1def
          by_cases h4 : ((r1.update (lengthValidate fl.nullable ln stringLength
              r1.data)).state) = false
          · rw [if_pos (by simp [h4])] at h
            injection h with h
            rw [← h] at hs
            rw [h4] at hs
            simp at hs
          · rw [if_neg (by simp [h4])] at h
            simp only [Bool.not_eq_false] at h4
            have hls2 : (lengthValidate fl.nullable ln stringLength r1.data).state
                = true := by
              have := update_state r1 (lengthValidate fl.nullable ln stringLength
                r1.data)
              rw [h4] at this
              rcases hll : (lengthValidate fl.nullable ln stringLength
                  r1.data).state
              · rw [hll] at this; simp at this
              · rfl
            have hls : (lengthValidate fl.nullable ln stringLength r0.data).state
                = true := by
              rw [hedata] at hls2
              exact hls2
            have hr2data : (r1.update (lengthValidate fl.nullable ln stringLength
                r1.data)).data = r0.data := by
              rw [update_data _ _ hls2, lengthValidate_data _ _ _ _ hls2, hedata]
            set r2 := r1.update (lengthValidate fl.nullable ln stringLength r1.data)
              with hr2def
            rcases rx with _ | rule
            · injection h with h
              right
              refine ⟨h2, r0, rfl, by simpa using h1, ?_, hes, hls, trivial⟩
              rw [← h, hr2data]
            · rcases hdd : r2.data with _ | b | n | q | s0 | xs | es <;>
                rw [hdd] at h <;> (try simp only at h)
              all_goals (try simp at h)
              by_cases h5 : m rule.pattern s0 = false
              · rw [if_pos h5] at h
                injection h with h
                rw [← h] at hs
                simp [VResult.invalidate] at hs
              · rw [if_neg h5] at h
                injection h with h
                right
                refine ⟨h2, r0, rfl, by simpa using h1, ?_, hes, hls,
                  ⟨s0, ?_, by simpa using h5⟩⟩
                · rw [← h, hr2data]
                · rw [← hr2data, hdd]

theorem string_second_pass (m : String → String → Bool) (fl2 : SchemaFlags)
    (en : Option (List JValue)) (ln : LengthState) (rx : Option RegexRule)
    (w : JValue)
    (hc : fl2.coerce = false) (hi : isinst w .str = true)
    (he : (enumValidate fl2.nullable en w).state = true)
    (hl : (lengthValidate fl2.nullable ln stringLength w).state = true)
    (hrx : match rx with
       | none => True
       | some rule => ∃ s0, w = .str s0 ∧ m rule.pattern s0 = true) :
    ∃ r2, validate m (.string fl2 en ln rx) w = .ok r2 ∧ r2.state = true := by
  have hnn : (fl2.nullable && w.isNull) = false := by
    rw [isinst_not_null w .str hi]
    simp
  have hcv := coerceValue_strict_of_isinst fl2 w .str hc hnn hi
  simp only [validate, hcv]
  rw [if_neg (by simp [VResult.ok])]
  rw [hnn]
  simp only [Bool.false_eq_true, if_false]
  have hdata : (VResult.ok w false).data = w := rfl
  rw [hdata]
  have hr1s : ((VResult.ok w false).update
      (enumValidate fl2.nullable en w)).state = true := by
    rw [update_state, he]
    rfl
  rw [if_neg (by simp [hr1s])]
  have hr1d : ((VResult.ok w false).update
      (enumValidate fl2.nullable en w)).data = w := by
    rw [update_data _ _ he, enumValidate_data _ _ _ he]
  rw [hr1d]
  have hr2s : (((VResult.ok w false).update (enumValidate fl2.nullable en w)).update
      (lengthValidate fl2.nullable ln stringLength w)).state = true := by
    rw [update_state, hl, hr1s]
    rfl
  rw [if_neg (by simp [hr2s])]
  have hr2d : (((VResult.ok w false).update (enumValidate fl2.nullable en w)).update
      (lengthValidate fl2.nullable ln stringLength w)).data = w := by
    rw [update_data _ _ hl, lengthValidate_data _ _ _ _ hl]
  rcases rx with _ | rule
  · exact ⟨_, rfl, hr2s⟩
  · rcases hrx with ⟨s0, hw, hm⟩
    subst hw
    rw [hr2d]
    simp only [hm, Bool.not_true, Bool.false_eq_true, if_false]
    exact ⟨_, rfl, hr2s⟩

end Pyaddict

namespace Pyaddict

theorem object_first_pass (m : String → String → Bool) (fl : SchemaFlags)
    (body : List (String × (Schema ⊕ JValue))) (add : Bool) (v : JValue)
    (r : VResult)
    (h : validate m (.object fl body add) v = .ok r) (hs : r.state = true) :
    ((fl.nullable && v.isNull) = true ∧ r.data = fl.dflt) ∨
    ((fl.nullable && v.isNull) = false ∧ ∃ entries out,
      validateFields m entries body = .ok (.inr out) ∧ r.data = .obj out) := by
  simp only [validate] at h
  rcases hcv : coerceValue fl v .dict with e | r0 <;> rw [hcv] at h <;>
    (try simp only at h)
  · simp at h
  · by_cases h1 : (!r0.state) = true
    · rw [if_pos h1] at h
      injection h with h
      rw [← h] at hs
      simp only [Bool.not_eq_true'] at h1
      rw [h1] at hs
      simp at hs
    · rw [if_neg h1] at h
      by_cases h2 : (fl.nullable && v.isNull) = true
      · rw [if_pos h2] at h
        injection h with h
        left
        refine ⟨h2, ?_⟩
        have := coerceValue_bypass fl v .dict h2
        rw [hcv] at this
        injection this with this
        rw [← h, this]
        rfl
      · simp only [Bool.not_eq_true] at h2
        rw [h2] at h
        simp only [Bool.false_eq_true, if_false] at h
        rcases hdd : r0.data with _ | b | n | q | s0 | xs | entries <;>
          rw [hdd] at h <;> (try simp only at h) <;> (try simp at h)
        rcases hf : validateFields m entries body with e | y <;> rw [hf] at h <;>
          (try simp only at h)
        · simp at h
        · rcases y with e | out
          · injection h with h
            rw [← h] at hs
            simp [VResult.invalidate] at hs
          · right
            refine ⟨h2, entries, out, hf, ?_⟩
            dsimp only at h
            by_cases ha : add = false
            · rw [if_pos ha] at h
              rcases hfind : entries.find?
                  (fun kv => !(body.any (fun bf => bf.1 == kv.1))) with _ | kv <;>
                rw [hfind] at h <;> (try dsimp only at h)
              · injection h with h
                rw [← h]
                rfl
              · injection h with h
                rw [← h] at hs
                simp [VResult.invalidate] at hs
            · rw [if_neg ha] at h
              injection h with h
              rw [← h]
              rfl

theorem array_first_pass (m : String → String → Bool) (fl : SchemaFlags)
    (ln : LengthState) (item : Schema) (v : JValue) (r : VResult)
    (h : validate m (.array fl ln item) v = .ok r) (hs : r.state = true) :
    ((fl.nullable && v.isNull) = true ∧ r.data = fl.dflt) ∨
    ((fl.nullable && v.isNull) = false ∧ ∃ xs ws,
      (lengthValidate fl.nullable ln arrLength (.arr xs)).state = true ∧
      validateItems m item xs = .ok (.inr ws) ∧ r.data = .arr ws) := by
  simp only [validate] at h
  rcases hcv : coerceValue fl v .list with e | r0 <;> rw [hcv] at h <;>
    (try simp only at h)
  · simp at h
  · by_cases h1 : (!r0.state) = true
    · rw [if_pos h1] at h
      injection h with h
      rw [← h] at hs
      simp only [Bool.not_eq_true'] at h1
      rw [h1] at hs
      simp at hs
    · rw [if_neg h1] at h
      by_cases h2 : (fl.nullable && v.isNull) = true
      · rw [if_pos h2] at h
        injection h with h
        left
        refine ⟨h2, ?_⟩
        have := coerceValue_bypass fl v .list h2
        rw [hcv] at this
        injection this with this
        rw [← h, this]
        rfl
      · simp only [Bool.not_eq_true] at h2
        rw [h2] at h
        simp only [Bool.false_eq_true, if_false] at h
        rcases hdd : r0.data with _ | b | n | q | s0 | xs | entries <;>
          rw [hdd] at h <;> (try simp only at h) <;> (try simp at h)
        by_cases h3 : ((r0.update (lengthValidate fl.nullable ln arrLength
            (.arr xs))).state) = false
        · rw [if_pos (by simp [h3])] at h
          injection h with h
          rw [← h] at hs
          rw [h3] at hs
          simp at hs
        · rw [if_neg (by simp [h3])] at h
          simp only [Bool.not_eq_false] at h3
          have hls : (lengthValidate fl.nullable ln arrLength (.arr xs)).state
              = true := by
            have := update_state r0 (lengthValidate fl.nullable ln arrLength
              (.arr xs))
            rw [h3] at this
            rcases hll : (lengthValidate fl.nullable ln arrLength (.arr xs)).state
            · rw [hll] at this; simp at this
            · rfl
          rcases hi : validateItems m item xs with e | y <;> rw [hi] at h <;>
            (try simp only at h)
          · simp at h
          · rcases y with e | ws
            · injection h with h
              rw [← h] at hs
              simp [VResult.invalidate] at hs
            · injection h with h
              right
              refine ⟨h2, xs, ws, hls, hi, ?_⟩
              rw [← h]
              rfl

theorem oneOf_first_pass (m : String → String → Bool) (fl : SchemaFlags)
    (alts : List Schema) (v : JValue) (r : VResult)
    (h : validate m (.oneOf fl alts) v = .ok r) (hs : r.state = true) :
    ((fl.nullable && v.isNull) = true ∧ r.data = fl.dflt) ∨
    ((fl.nullable && v.isNull) = false ∧ validateAlts m v alts = .ok (.inl r)) := by
  simp only [validate] at h
  by_cases h2 : (fl.nullable && v.isNull) = true
  · rw [if_pos h2] at h
    injection h with h
    left
    refine ⟨h2, ?_⟩
    rw [← h]
    rfl
  · simp only [Bool.not_eq_true] at h2
    rw [h2] at h
    simp only [Bool.false_eq_true, if_false] at h
    rcases ha : validateAlts m v alts with e | y <;> rw [ha] at h <;>
      (try simp only at h)
    · simp at h
    · rcases y with r2 | errs
      · injection h with h
        right
        rw [← h]
        exact ⟨h2, rfl⟩
      · injection h with h
        rw [← h] at hs
        simp [VResult.err] at hs

end Pyaddict

namespace Pyaddict

theorem object_second_pass (m : String → String → Bool) (fl2 : SchemaFlags)
    (body2 : List (String × (Schema ⊕ JValue))) (add : Bool)
    (out : List (String × JValue))
    (hfd : ∃ out2, validateFields m out body2 = .ok (.inr out2))
    (hkeys : ∀ k, k ∈ out.map Prod.fst → k ∈ body2.map Prod.fst) :
    ∃ r2, validate m (.object fl2 body2 add) (.obj out) = .ok r2 ∧
      r2.state = true := by
  simp only [validate, coerceValue_obj]
  rw [if_neg (by simp [VResult.ok])]
  have hb : (fl2.nullable && (JValue.obj out).isNull) = false := by
    simp [JValue.isNull]
  rw [hb]
  simp only [Bool.false_eq_true, if_false]
  rcases hfd with ⟨out2, hout2⟩
  simp only [VResult.ok]
  rw [hout2]
  (try dsimp only)
  by_cases ha : (!add) = true
  · rw [if_pos ha]
    have hfind : out.find? (fun kv => !(body2.any (fun bf => bf.1 == kv.1)))
        = none := by
      rw [List.find?_eq_none]
      intro kv hkv
      have hk : kv.1 ∈ out.map Prod.fst := by
        simp only [List.mem_map]
        exact ⟨kv, hkv, rfl⟩
      have := any_of_mem_keys kv.1 body2 (hkeys kv.1 hk)
      simp [this]
    rw [hfind]
    exact ⟨_, rfl, rfl⟩
  · rw [if_neg ha]
    exact ⟨_, rfl, rfl⟩

theorem array_second_pass (m : String → String → Bool) (fl2 : SchemaFlags)
    (ln : LengthState) (item2 : Schema) (ws : List JValue)
    (hc : fl2.coerce = false)
    (hl2 : (lengthValidate fl2.nullable ln arrLength (.arr ws)).state = true)
    (hit : ∃ ws2, validateItems m item2 ws = .ok (.inr ws2)) :
    ∃ r2, validate m (.array fl2 ln item2) (.arr ws) = .ok r2 ∧
      r2.state = true := by
  have hcv := coerceValue_strict_of_isinst fl2 (.arr ws) .list hc
    (by simp [JValue.isNull]) (by simp [isinst])
  simp only [validate, hcv]
  rw [if_neg (by simp [VResult.ok])]
  have hb : (fl2.nullable && (JValue.arr ws).isNull) = false := by
    simp [JValue.isNull]
  rw [hb]
  simp only [Bool.false_eq_true, if_false]
  simp only [VResult.ok]
  rw [if_neg (by simp [update_state, hl2, VResult.ok])]
  rcases hit with ⟨ws2, hws2⟩
  rw [hws2]
  exact ⟨_, rfl, rfl⟩

theorem oneOf_second_pass (m : String → String → Bool) (fl2 : SchemaFlags)
    (alts2 : List Schema) (w : JValue)
    (htot : ∀ a, a ∈ alts2 → ∃ rr, validate m a w = .ok rr)
    (hwin : ∃ a, a ∈ alts2 ∧ ∃ rr, validate m a w = .ok rr ∧ rr.state = true) :
    ∃ r2, validate m (.oneOf fl2 alts2) w = .ok r2 ∧ r2.state = true := by
  simp only [validate]
  by_cases hb : (fl2.nullable && w.isNull) = true
  · rw [if_pos hb]
    exact ⟨_, rfl, rfl⟩
  · simp only [Bool.not_eq_true] at hb
    rw [hb]
    simp only [Bool.false_eq_true, if_false]
    obtain ⟨res, hres, hstate⟩ := validateAlts_wins m w alts2 htot hwin
    rw [hres]
    exact ⟨res, rfl, hstate⟩

end Pyaddict

namespace Pyaddict

/-- A validation call with a successful boolean outcome yields a result value in the valid state. -/
theorem isOkS_true (e : Except PyExc VResult) (h : isOkS e = true) :
    ∃ r, e = .ok r ∧ r.state = true := by
  rcases e with exc | r
  · simp [isOkS] at h
  · exact ⟨r, rfl, h⟩

/-- Round-trip induction: on a well-formed schema whose defaults are strictly valid, every successful validation output revalidates successfully against the coercion-stripped schema. -/
theorem roundtrip_aux (m : String → String → Bool) :
    ∀ (n : Nat) (s : Schema), sizeOf s < n → wfSchema s = true →
      defaultsOk m s = true →
      ∀ v r, validate m s v = .ok r → r.state = true →
      ∃ r2, validate m (stripCoerce s) r.data = .ok r2 ∧ r2.state = true := by
  intro n
  induction n with
  | zero => intro s h; exact absurd h (Nat.not_lt_zero _)
  | succ n ih =>
    intro s hsz hwf hdo v r hv hs
    cases s with
    | string fl en ln rx =>
      rcases string_first_pass m fl en ln rx v r hv hs with
        ⟨h2, hdata⟩ | ⟨h2, r0, hcv, hr0s, hrd, hes, hls, hrx⟩
      · have hnul : fl.nullable = true := by
          have h3 := h2
          simp only [Bool.and_eq_true] at h3
          exact h3.1
        simp only [defaultsOk, hnul, Bool.not_true, Bool.false_or] at hdo
        rw [hdata]
        exact isOkS_true _ hdo
      · have hshape := coerceValue_scalar_shape fl v .str r0 hcv hr0s h2
          (by simp) (by simp)
        have hsc : stripCoerce (Schema.string fl en ln rx)
            = .string { fl with coerce := false } en ln rx := by
          simp [stripCoerce]
        rw [hsc, hrd]
        exact string_second_pass m _ en ln rx r0.data rfl hshape hes hls
          (by rcases rx with _ | rule
              · trivial
              · exact hrx)
    | integer fl en ln =>
      rcases integer_first_pass m fl en ln v r hv hs with
        ⟨h2, hdata⟩ | ⟨h2, r0, hcv, hr0s, hrd, hes, hls⟩
      · have hnul : fl.nullable = true := by
          have h3 := h2
          simp only [Bool.and_eq_true] at h3
          exact h3.1
        simp only [defaultsOk, hnul, Bool.not_true, Bool.false_or] at hdo
        rw [hdata]
        exact isOkS_true _ hdo
      · have hshape := coerceValue_scalar_shape fl v .int r0 hcv hr0s h2
          (by simp) (by simp)
        have hsc : stripCoerce (Schema.integer fl en ln)
            = .integer { fl with coerce := false } en ln := by
          simp [stripCoerce]
        rw [hsc, hrd]
        exact integer_second_pass m _ en ln r0.data rfl hshape hes hls
    | float fl en ln =>
      rcases float_first_pass m fl en ln v r hv hs with
        ⟨h2, hdata⟩ | ⟨h2, r0, hcv, hr0s, hrd, hes, hls⟩
      · have hnul : fl.nullable = true := by
          have h3 := h2
          simp only [Bool.and_eq_true] at h3
          exact h3.1
        simp only [defaultsOk, hnul, Bool.not_true, Bool.false_or] at hdo
        rw [hdata]
        exact isOkS_true _ hdo
      · have hshape := coerceValue_scalar_shape fl v .float r0 hcv hr0s h2
          (by simp) (by simp)
        have hsc : stripCoerce (Schema.float fl en ln)
            = .float { fl with coerce := false } en ln := by
          simp [stripCoerce]
        rw [hsc, hrd]
        exact float_second_pass m _ en ln r0.data rfl hshape hes hls
    | boolean fl en =>
      rcases boolean_first_pass m fl en v r hv hs with
        ⟨h2, hdata⟩ | ⟨h2, r0, hcv, hr0s, hrd, hes⟩
      · have hnul : fl.nullable = true := by
          have h3 := h2
          simp only [Bool.and_eq_true] at h3
          exact h3.1
        simp only [defaultsOk, hnul, Bool.not_true, Bool.false_or] at hdo
        rw [hdata]
        exact isOkS_true _ hdo
      · have hshape := coerceValue_scalar_shape fl v .bool r0 hcv hr0s h2
          (by simp) (by simp)
        have hsc : stripCoerce (Schema.boolean fl en)
            = .boolean { fl with coerce := false } en := by
          simp [stripCoerce]
        rw [hsc, hrd]
        exact boolean_second_pass m _ en r0.data rfl hshape hes
    | object fl body add =>
      simp only [wfSchema, Bool.and_eq_true] at hwf
      obtain ⟨hnd, hwff⟩ := hwf
      simp only [defaultsOk, Bool.and_eq_true] at hdo
      obtain ⟨hdo1, hdof⟩ := hdo
      rcases object_first_pass m fl body add v r hv hs with
        ⟨h2, hdata⟩ | ⟨h2, entries, out, hfields, hrd⟩
      · have hnul : fl.nullable = true := by
          have h3 := h2
          simp only [Bool.and_eq_true] at h3
          exact h3.1
        rw [hnul] at hdo1
        simp only [Bool.not_true, Bool.false_or] at hdo1
        rw [hdata]
        exact isOkS_true _ hdo1
      · have hmemhyp : ∀ k cs inv kr, (k, Sum.inl cs) ∈ body →
            jlookup k entries = some inv → validate m cs inv = .ok kr →
            kr.state = true →
            ∃ r2, validate m (stripCoerce cs) kr.data = .ok r2 ∧
              r2.state = true := by
          intro k cs inv kr hmem _ hvk hks
          have hlt : sizeOf cs < n := by
            have a1 := sizeOf_field_lt k cs body hmem
            have a2 : sizeOf body < sizeOf (Schema.object fl body add) := by
              simp only [Schema.object.sizeOf_spec]
              omega
            omega
          exact ih cs hlt (wfFields_mem body hwff k cs hmem)
            (defaultsOkFields_mem m body hdof k cs hmem) inv kr hvk hks
        obtain ⟨out2, hout2⟩ := roundtripFields m body entries out out hnd
          hfields (fun k _ => rfl) hmemhyp
        have hkeys : ∀ k, k ∈ out.map Prod.fst →
            k ∈ (stripFields body).map Prod.fst := by
          intro k hk
          rw [stripFields_keys_eq]
          exact validateFields_keys m entries body out hfields k hk
        have hsc : stripCoerce (Schema.object fl body add)
            = .object { fl with coerce := false } (stripFields body) add := by
          simp [stripCoerce]
        rw [hsc, hrd]
        exact object_second_pass m _ (stripFields body) add out ⟨out2, hout2⟩ hkeys
    | array fl ln item =>
      simp only [wfSchema] at hwf
      simp only [defaultsOk, Bool.and_eq_true] at hdo
      obtain ⟨hdo1, hdoi⟩ := hdo
      rcases array_first_pass m fl ln item v r hv hs with
        ⟨h2, hdata⟩ | ⟨h2, xs, ws, hlen1, hitems, hrd⟩
      · have hnul : fl.nullable = true := by
          have h3 := h2
          simp only [Bool.and_eq_true] at h3
          exact h3.1
        rw [hnul] at hdo1
        simp only [Bool.not_true, Bool.false_or] at hdo1
        rw [hdata]
        exact isOkS_true _ hdo1
      · have hlti : sizeOf item < n := by
          have a2 : sizeOf item < sizeOf (Schema.array fl ln item) := by
            simp only [Schema.array.sizeOf_spec]
            omega
          omega
        have hmemhyp : ∀ x kr, x ∈ xs → validate m item x = .ok kr →
            kr.state = true →
            ∃ r2, validate m (stripCoerce item) kr.data = .ok r2 ∧
              r2.state = true := by
          intro x kr _ hvk hks
          exact ih item hlti hwf hdoi x kr hvk hks
        obtain ⟨⟨ws2, hws2⟩, hlen⟩ := roundtripItems m item xs ws hitems hmemhyp
        have hl2 : (lengthValidate fl.nullable ln arrLength (.arr ws)).state
            = true := by
          rw [lengthValidate_state_eq fl.nullable ln arrLength (.arr ws) (.arr xs)
            rfl (by simp [arrLength, hlen])]
          exact hlen1
        have hsc : stripCoerce (Schema.array fl ln item)
            = .array { fl with coerce := false } ln (stripCoerce item) := by
          simp [stripCoerce]
        rw [hsc, hrd]
        exact array_second_pass m _ ln (stripCoerce item) ws rfl hl2 ⟨ws2, hws2⟩
    | oneOf fl alts =>
      simp only [wfSchema] at hwf
      simp only [defaultsOk, Bool.and_eq_true] at hdo
      obtain ⟨hdo1, hdoa⟩ := hdo
      rcases oneOf_first_pass m fl alts v r hv hs with
        ⟨h2, hdata⟩ | ⟨h2, halts⟩
      · have hnul : fl.nullable = true := by
          have h3 := h2
          simp only [Bool.and_eq_true] at h3
          exact h3.1
        rw [hnul] at hdo1
        simp only [Bool.not_true, Bool.false_or] at hdo1
        rw [hdata]
        exact isOkS_true _ hdo1
      · obtain ⟨a, hma, hva⟩ := validateAlts_inl_mem m v alts r halts
        have hlta : sizeOf a < n := by
          have a1 := sizeOf_alt_lt a alts hma
          have a2 : sizeOf alts < sizeOf (Schema.oneOf fl alts) := by
            simp only [Schema.oneOf.sizeOf_spec]
            omega
          omega
        obtain ⟨r2, hr2, hr2s⟩ := ih a hlta (wfAlts_mem alts hwf a hma)
          (defaultsOkAlts_mem m alts hdoa a hma) v r hva hs
        have htot : ∀ a2, a2 ∈ stripAlts alts →
            ∃ rr, validate m a2 r.data = .ok rr := by
          intro a2 hm2
          have hcf : coerceFree a2 = true := by
            apply coerceFree_alts_mem (stripAlts alts) _ a2 hm2
            apply stripAlts_coerceFree
            intro b _
            exact stripCoerce_coerceFree b
          exact validate_total m a2 hcf r.data
        have hwin : ∃ a2, a2 ∈ stripAlts alts ∧
            ∃ rr, validate m a2 r.data = .ok rr ∧ rr.state = true :=
          ⟨stripCoerce a, mem_stripAlts a alts hma, r2, hr2, hr2s⟩
        have hsc : stripCoerce (Schema.oneOf fl alts)
            = .oneOf { fl with coerce := false } (stripAlts alts) := by
          simp [stripCoerce]
        rw [hsc]
        exact oneOf_second_pass m _ (stripAlts alts) r.data htot hwin

end Pyaddict

namespace Pyaddict

/-- C6 counterexample: the schema Integer().default("x") accepts None (the nullable short-circuit substitutes the stored default unchecked), producing the output "x" — but validating that output a second time with coercion disabled fails, because "x" is not an int. The round-trip property as universally stated is false. -/
theorem C6_counterexample :
    isOkS (validate (fun _ _ => true) (mkInteger.default (.str "x")) .null)
        = true ∧
      resData (validate (fun _ _ => true) (mkInteger.default (.str "x")) .null)
        = .str "x" ∧
      isOkS (validate (fun _ _ => true)
        (stripCoerce (mkInteger.default (.str "x"))) (.str "x")) = false := by
  refine ⟨?_, ?_, ?_⟩ <;>
    simp [validate, mkInteger, Schema.default, Schema.withFlags, Schema.flags,
          stripCoerce, coerceValue, enumValidate, lengthValidate, isinst,
          SchemaFlags.base, LengthState.base, VResult.update, VResult.ok,
          VResult.err, JValue.isNull, intLength, isOkS, resData]

/-- C6 amended: round-trip idempotence holds provided every configured default is itself strictly valid for its node (automatic when no default is set, since the initial default None passes the nullable short-circuit) and every object body has pairwise-distinct field keys (automatic for schemas built from Python dicts): whenever validate(v) succeeds with output w, validating w against the same schema with the coerce flag cleared on every node succeeds as well. -/
theorem C6_roundtrip_valid_defaults
    (m : String → String → Bool) (s : Schema) (v : JValue) (r : VResult)
    (hwf : wfSchema s = true) (hdflt : defaultsOk m s = true)
    (hv : validate m s v = .ok r) (hs : r.state = true) :
    ∃ r2, validate m (stripCoerce s) r.data = .ok r2 ∧ r2.state = true :=
  roundtrip_aux m (sizeOf s + 1) s (by omega) hwf hdflt v r hv hs

/-- C6 witness: Integer().coerce() validates True to the coerced output 1, and 1 revalidates successfully against the same schema with coercion disabled. -/
theorem C6_witness :
    ∃ r2, validate (fun _ _ => true) (stripCoerce (mkInteger.coerce)) (.int 1)
        = .ok r2 ∧ r2.state = true := by
  have hv : validate (fun _ _ => true) (mkInteger.coerce) (.bool true)
      = .ok { state := true, data := .int 1, error := none, nullable := false } := by
    simp [validate, mkInteger, Schema.coerce, Schema.withFlags, Schema.flags,
          coerceValue, enumValidate, lengthValidate, isinst, SchemaFlags.base,
          LengthState.base, VResult.update, VResult.ok, VResult.err,
          JValue.isNull, intLength, pyCast, pyIntCast, Except.map]
  exact C6_roundtrip_valid_defaults (fun _ _ => true) (mkInteger.coerce)
    (.bool true) { state := true, data := .int 1, error := none, nullable := false }
    (by simp [wfSchema, mkInteger, Schema.coerce, Schema.withFlags])
    (by simp [defaultsOk, mkInteger, Schema.coerce, Schema.withFlags,
              Schema.flags, SchemaFlags.base])
    hv rfl

end Pyaddict
